import Mathlib

/-!
Verification of the FAST interactive configurator (`fast/configure.py`)
against its natural-language specification.

The development shallowly embeds the Python code:

* `HValue` / `Config` model the Python values stored in the shared
  `self.config` dictionary (`None`, `bool`, `int`, `str`, `list`, `dict`;
  `unsupported` stands for any other Python object, e.g. a set or a raw
  object, which matches none of the `isinstance` branches of the code).
* `print_hcl_scalar` / `print_hcl` embed `FastDialogs.print_hcl_scalar`
  and `FastDialogs.print_hcl` (the HCL serializer), producing the exact
  character sequence the Python code writes to the file object.
* `parseValue` / `parseAttrs` are a reader for the attribute/block HCL
  subset; the target format's parser is external to the repository, so the
  reader is modelled from the spec (see its doc comment).
* `change_module_source_line` embeds the per-line `re.sub` transform of
  `FastDialogs.change_module_source`.
* `run_wizard_go` embeds the `FastDialogs.run_wizard` loop, including
  Python's negative-index list access.
* `run_terraform_until_ok` embeds the retry loop of
  `FastDialogs.run_terraform_until_ok`, abstracting the dialog/process
  rendezvous into an oracle that yields, per iteration, the subprocess
  exit code and the dialog result (`some true` = Ok/Retry pressed,
  `some false` = Previous, `none` = Quit).
* `select_gitlab_token` / `select_github_token` / `select_gitlab_repositories`
  embed the corresponding step handlers.
-/

namespace Configure

/-- A Python value as stored in the shared configuration dictionary.
`unsupported` models any Python object matching none of the `isinstance`
branches of `print_hcl_scalar` (e.g. a set, a tuple, a raw object). -/
inductive HValue where
  | null : HValue
  | bool (b : Bool) : HValue
  | int (n : Int) : HValue
  | str (s : String) : HValue
  | list (xs : List HValue) : HValue
  | dict (kvs : List (String × HValue)) : HValue
  | unsupported : HValue

/-- The shared `self.config` dictionary: an insertion-ordered mapping. -/
abbrev Config := List (String × HValue)

/-- Python `d[k]` read access (first matching key; a Python dict never has
duplicate keys, so on canonical representations this is exact). -/
def pyLookup {α : Type} : List (String × α) → String → Option α
  | [], _ => none
  | (k', v) :: tl, k => if k' = k then some v else pyLookup tl k

/-- Python `d[k] = v`: replace in place if the key exists (keeping its
position, i.e. insertion order), otherwise append at the end. -/
def pyUpdate {α : Type} : List (String × α) → String → α → List (String × α)
  | [], k, v => [(k, v)]
  | (k', v') :: tl, k, v =>
    if k' = k then (k', v) :: tl else (k', v') :: pyUpdate tl k v

/-- Python `{**a, **b}`: start from `a` and apply every entry of `b` in
order, so entries of `b` overwrite entries of `a` with the same key. -/
def pyMergeInto {α : Type} (a b : List (String × α)) : List (String × α) :=
  b.foldl (fun acc kv => pyUpdate acc kv.1 kv.2) a

/-- The seeding of a later wizard with a prior wizard's configuration:
`self.config = {**self.config, **config}` in the `__init__` methods of
`FastCicdConfigurator`, `FastCicdSystemConfigurator`,
`FastGitlabConfigurator` and `FastGithubConfigurator`. -/
def wizard_seed (defaults incoming : Config) : Config :=
  pyMergeInto defaults incoming

/-- The class-level default configuration of `FastDialogs`. -/
def FastDialogs_config : Config :=
  [("use_upstream", .bool true), ("upstream_tag", .null),
   ("bootstrap_output_path", .null), ("cicd_output_path", .null)]

/-- The class-level default configuration of `FastCicdConfigurator`. -/
def FastCicdConfigurator_config : Config := [("git", .str "ssh")]

/-- `FastDialogs.indent_spaces`. -/
def indent_spaces : Nat := 2

/-- `(indent * self.indent_spaces) * " "`. -/
def pad (indent : Nat) : List Char := List.replicate (indent * indent_spaces) ' '

/-- `scalar.replace("\"", "\\\"")` — Python `str.replace` with the
one-character pattern `"` is exactly this character-wise map. -/
def escQuotes : List Char → List Char
  | [] => []
  | c :: cs => if c = '"' then '\\' :: '"' :: escQuotes cs else c :: escQuotes cs

def digitChar (n : Nat) : Char := Char.ofNat (48 + n)

def natDecGo : Nat → Nat → List Char
  | _, 0 => []
  | n, fuel+1 =>
    if n < 10 then [digitChar n] else natDecGo (n / 10) fuel ++ [digitChar (n % 10)]

/-- Decimal digits of a natural number, most significant first.  This is
the (unique) decimal representation without leading zeros, hence exactly
Python's `str` on a non-negative `int`. -/
def natDec (n : Nat) : List Char := natDecGo n (n + 1)

/-- Python `str` on an `int`: decimal digits, `-`-prefixed if negative. -/
def intDec : Int → List Char
  | .ofNat m => natDec m
  | .negSucc m => '-' :: natDec (m + 1)

def lbrace : Char := Char.ofNat 123

def rbrace : Char := Char.ofNat 125

mutual

/-- `FastDialogs.print_hcl_scalar` — the characters written to `f`.
An unmatched value (`dict`, `unsupported`) matches no `isinstance`
branch, so nothing at all is written for it.  `None` writes `null` and
then falls through all remaining branches. -/
def print_hcl_scalar : HValue → List Char
  | .null => "null".data
  | .str s => '"' :: escQuotes s.data ++ ['"']
  | .bool b => if b then "true".data else "false".data
  | .int n => intDec n
  | .list xs => '[' :: print_hcl_scalar_list xs true ++ [']']
  | .dict _ => []
  | .unsupported => []

/-- The `for v in scalar` loop of `print_hcl_scalar` with its `first`
flag: elements separated by `", "`. -/
def print_hcl_scalar_list : List HValue → Bool → List Char
  | [], _ => []
  | v :: tl, first =>
    (if first then [] else ", ".data) ++ print_hcl_scalar v ++
      print_hcl_scalar_list tl false

end

mutual

/-- `FastDialogs.print_hcl` — the characters written to `f`.
For a dict: pad, `{`+newline when `indent != 0`, the entries, pad,
`}`+newline when `indent != 0`; otherwise the scalar printer; and in both
cases a final newline. -/
def print_hcl : HValue → Nat → List Char
  | .dict kvs, indent =>
    pad indent ++ (if indent ≠ 0 then [lbrace, '\n'] else []) ++
      print_hcl_entries kvs indent ++
      pad indent ++ (if indent ≠ 0 then [rbrace, '\n'] else []) ++ ['\n']
  | v, _ => print_hcl_scalar v ++ ['\n']

/-- The `for k, v in content.items()` loop of `print_hcl`: for each entry,
pad, `k = `, and the recursive rendering at `indent + 1`. -/
def print_hcl_entries : List (String × HValue) → Nat → List Char
  | [], _ => []
  | (k, v) :: tl, indent =>
    pad indent ++ k.data ++ " = ".data ++ print_hcl v (indent + 1) ++
      print_hcl_entries tl indent

end

/-- Serializing a whole configuration: `print_hcl(config, f)` at the
top level (`indent = 0`). -/
def serialize (cfg : Config) : List Char := print_hcl (.dict cfg) 0

/-- Inverse of quote-escaping: collapse `\"` pairs back to `"`. -/
def unescQuotes : List Char → List Char
  | [] => []
  | [c] => [c]
  | c :: d :: tl =>
    if c = '\\' && d = '"' then '"' :: unescQuotes tl
    else c :: unescQuotes (d :: tl)

/-- Scanning left to right, every `"` is consumed as part of a `\"`
escape pair — i.e. the body contains no unescaped quote. -/
def noNakedQuote : List Char → Bool
  | [] => true
  | [c] => c ≠ '"'
  | c :: d :: tl =>
    if c = '\\' && d = '"' then noNakedQuote tl
    else (c ≠ '"') && noNakedQuote (d :: tl)

/-- Value of a digit string, most significant first. -/
def digitsVal (l : List Char) : Nat :=
  l.foldl (fun a c => 10 * a + (c.toNat - 48)) 0

/-- Decode an optionally `-`-signed digit string. -/
def intVal : List Char → Int
  | [] => 0
  | c :: ds => if c = '-' then - (digitsVal ds : Int) else (digitsVal (c :: ds) : Int)

/-! ### A reader for the emitted HCL attribute/block subset

Modelled from the spec: the round-trip property of §8 parses the
serializer's output "using the target format's own parser"; that parser
(HCL, as consumed by the external provisioning tool) is not part of this
repository, so it is modelled here from the spec's description of the
format — `key = value` attributes, `{ ... }` blocks, `null`/`true`/`false`
tokens, decimal integer literals, double-quoted strings with `\"` and
`\\` escapes (a raw newline or carriage return inside a string is
rejected), bracketed comma-separated lists.  All recursion is fuel-based
so the reader is kernel-executable. -/

def isWsChar (c : Char) : Bool := c = ' ' || c = '\t' || c = '\n' || c = '\r'

def skipWs : List Char → List Char
  | [] => []
  | c :: cs => if isWsChar c then skipWs cs else c :: cs

def isAsciiLetter (c : Char) : Bool :=
  (65 ≤ c.toNat && c.toNat ≤ 90) || (97 ≤ c.toNat && c.toNat ≤ 122)

def isDigitChar (c : Char) : Bool := 48 ≤ c.toNat && c.toNat ≤ 57

def isIdentStartChar (c : Char) : Bool := isAsciiLetter c || c = '_'

def isIdentChar (c : Char) : Bool :=
  isAsciiLetter c || isDigitChar c || c = '_' || c = '-'

/-- True when a keyword or number token ends here (end of input or a
non-identifier character follows). -/
def tokenEnd : List Char → Bool
  | [] => true
  | c :: _ => !(isIdentChar c)

/-- Drop a literal from the front of the input, or fail. -/
def dropLit : List Char → List Char → Option (List Char)
  | [], l => some l
  | _ :: _, [] => none
  | p :: ps, c :: cs => if p = c then dropLit ps cs else none

/-- Body of a double-quoted string up to the closing quote. -/
def parseStringBody : List Char → Option (List Char × List Char)
  | [] => none
  | c :: rest =>
    if c = '"' then some ([], rest)
    else if c = '\\' then
      match rest with
      | [] => none
      | d :: rest2 =>
        if d = '"' || d = '\\' then
          (parseStringBody rest2).map (fun p => (d :: p.1, p.2))
        else none
    else if c = '\n' || c = '\r' then none
    else (parseStringBody rest).map (fun p => (c :: p.1, p.2))

/-- A decimal digit run and its value. -/
def parseDigits (l : List Char) : Option (Nat × List Char) :=
  let ds := l.takeWhile isDigitChar
  if ds.isEmpty then none else some (digitsVal ds, l.dropWhile isDigitChar)

/-- Body of `parseValue`, abstracted over the recursive calls. -/
def parseValueF (pList : List Char → Option (List HValue × List Char))
    (pAttrs : List Char → Option (List (String × HValue) × List Char))
    (l : List Char) : Option (HValue × List Char) :=
  match skipWs l with
  | [] => none
  | c :: cs =>
    if c = '"' then
      (parseStringBody cs).map (fun p => (.str (String.mk p.1), p.2))
    else if c = '[' then
      (pList cs).map (fun p => (.list p.1, p.2))
    else if c = lbrace then
      match pAttrs cs with
      | some (kvs, c' :: r) => if c' = rbrace then some (.dict kvs, r) else none
      | _ => none
    else if c = '-' then
      match parseDigits cs with
      | some (n, r) => if tokenEnd r then some (.int (-(n : Int)), r) else none
      | none => none
    else if isDigitChar c then
      match parseDigits (c :: cs) with
      | some (n, r) => if tokenEnd r then some (.int (n : Int), r) else none
      | none => none
    else
      match dropLit "null".data (c :: cs) with
      | some r => if tokenEnd r then some (.null, r) else none
      | none =>
        match dropLit "true".data (c :: cs) with
        | some r => if tokenEnd r then some (.bool true, r) else none
        | none =>
          match dropLit "false".data (c :: cs) with
          | some r => if tokenEnd r then some (.bool false, r) else none
          | none => none

/-- Body of `parseListElems`, abstracted over the recursive calls. -/
def parseListElemsF (pValue : List Char → Option (HValue × List Char))
    (pElems : List Char → Option (List HValue × List Char))
    (l : List Char) : Option (List HValue × List Char) :=
  match skipWs l with
  | [] => none
  | c :: cs =>
    if c = ']' then some ([], cs)
    else
      match pValue (c :: cs) with
      | none => none
      | some (v, r) =>
        match skipWs r with
        | ',' :: r2 => (pElems r2).map (fun p => (v :: p.1, p.2))
        | ']' :: r2 => some ([v], r2)
        | _ => none

/-- Body of `parseAttrs`, abstracted over the recursive calls. -/
def parseAttrsF (pValue : List Char → Option (HValue × List Char))
    (pAttrs : List Char → Option (List (String × HValue) × List Char))
    (l : List Char) : Option (List (String × HValue) × List Char) :=
  match skipWs l with
  | [] => some ([], [])
  | c :: cs =>
    if c = rbrace then some ([], c :: cs)
    else if isIdentStartChar c then
      match skipWs ((c :: cs).dropWhile isIdentChar) with
      | [] => none
      | e :: r2 =>
        if e = '=' then
          match pValue r2 with
          | none => none
          | some (v, r3) =>
            (pAttrs r3).map
              (fun p => ((String.mk ((c :: cs).takeWhile isIdentChar), v) :: p.1, p.2))
        else none
    else none

mutual

/-- One HCL value: string, list, block, number, or keyword. -/
def parseValue : Nat → List Char → Option (HValue × List Char)
  | 0, _ => none
  | fuel+1, l => parseValueF (parseListElems fuel) (parseAttrs fuel) l

/-- Comma-separated values up to (and consuming) the closing `]`. -/
def parseListElems : Nat → List Char → Option (List HValue × List Char)
  | 0, _ => none
  | fuel+1, l => parseListElemsF (parseValue fuel) (parseListElems fuel) l

/-- A run of `ident = value` attributes; stops (without consuming) at a
closing `}` or at end of input, returning the attributes in order. -/
def parseAttrs : Nat → List Char → Option (List (String × HValue) × List Char)
  | 0, _ => none
  | fuel+1, l => parseAttrsF (parseValue fuel) (parseAttrs fuel) l

end

/-- Parse a whole configuration file body: the attribute run must consume
the entire input. -/
def hcl_parse (l : List Char) : Option Config :=
  match parseAttrs (l.length + 1) l with
  | some (kvs, []) => some kvs
  | _ => none

/-! ### Well-formedness: the restricted class for the round-trip -/

/-- String characters that survive the code's quote-only escaping and the
target format's string syntax: no backslash (the code does not escape it),
no raw newline / carriage return (illegal inside an HCL string), and no
`$` or `%` (template interpolation sequences). -/
def safeChar (c : Char) : Bool :=
  c ≠ '\\' && c ≠ '\n' && c ≠ '\r' && c ≠ '$' && c ≠ '%'

def safeStr (s : String) : Bool := s.data.all safeChar

/-- A key the target format reads back as the same attribute name. -/
def isIdentKey (s : String) : Bool :=
  match s.data with
  | [] => false
  | c :: cs => isIdentStartChar c && cs.all isIdentChar

mutual

/-- Values that may appear inside a list (Python scalars and nested
lists; a dict nested in a list is not rendered by `print_hcl_scalar`). -/
def wfScalar : HValue → Bool
  | .null => true
  | .bool _ => true
  | .int _ => true
  | .str s => safeStr s
  | .list xs => wfScalarList xs
  | .dict _ => false
  | .unsupported => false

def wfScalarList : List HValue → Bool
  | [] => true
  | v :: tl => wfScalar v && wfScalarList tl

end

def hasKey {α : Type} (tl : List (String × α)) (k : String) : Bool :=
  tl.any (fun kv => kv.1 = k)

mutual

/-- Values that may appear as an attribute value: well-formed scalars or
nested well-formed mappings. -/
def wfValue : HValue → Bool
  | .dict kvs => wfEntries kvs
  | v => wfScalar v

/-- Entries of a well-formed mapping: identifier keys, no duplicate keys
(a Python dict never has duplicates), well-formed values. -/
def wfEntries : List (String × HValue) → Bool
  | [] => true
  | (k, v) :: tl => isIdentKey k && !(hasKey tl k) && wfValue v && wfEntries tl

end

mutual

/-- Fuel needed by `parseValue` on the rendering of `v` (the recursion
depth of the reader's call tree). -/
def pdepth : HValue → Nat
  | .list xs => 1 + pdepthList xs
  | .dict kvs => 1 + pdepthEntries kvs
  | _ => 1

def pdepthList : List HValue → Nat
  | [] => 1
  | v :: tl => 1 + max (pdepth v) (pdepthList tl)

def pdepthEntries : List (String × HValue) → Nat
  | [] => 1
  | (_, v) :: tl => 1 + max (pdepth v) (pdepthEntries tl)

end

/-! ### Module source rewriting (`FastDialogs.change_module_source`) -/

/-- Python's `\s` on the ASCII range (the characters occurring in
Terraform files): space, tab, newline, carriage return, vertical tab,
form feed. -/
def isPySpace (c : Char) : Bool :=
  c = ' ' || c = '\t' || c = '\n' || c = '\r' || c = '\x0b' || c = '\x0c'

/-- Python `"pat" in s` (substring test). -/
def hasSub (pat : List Char) : List Char → Bool
  | [] => (dropLit pat []).isSome
  | c :: cs =>
    match dropLit pat (c :: cs) with
    | some _ => true
    | none => hasSub pat cs

/-- Python `s.replace(pat, rep)`: left-to-right, non-overlapping. -/
def replaceGo (pat rep : List Char) : Nat → List Char → List Char
  | 0, l => l
  | _+1, [] => []
  | fuel+1, c :: cs =>
    match dropLit pat (c :: cs) with
    | some r2 => rep ++ replaceGo pat rep fuel r2
    | none => c :: replaceGo pat rep fuel cs

def pyReplace (pat rep l : List Char) : List Char := replaceGo pat rep l.length l

/-- A match of `(source[\s]*=[\s]*\")(.+?)(\")`: the two whitespace runs
of group 1 and the lazily-matched group 2. -/
structure SrcMatch where
  ws1 : List Char
  ws2 : List Char
  content : List Char

/-- Group 1 of the regex: `source`, whitespace, `=`, whitespace, `"`. -/
def srcGroup1 (m : SrcMatch) : List Char :=
  "source".data ++ m.ws1 ++ ['='] ++ m.ws2 ++ ['"']

/-- The full matched text (group 1, group 2, closing quote). -/
def srcMatched (m : SrcMatch) : List Char := srcGroup1 m ++ m.content ++ ['"']

/-- Try the regex at the current position.  Group 2 is `.+?` followed by
`"`: the shortest non-empty newline-free run whose next character is a
quote, i.e. one arbitrary (non-newline) character followed by
quote-free (non-newline) characters up to the next quote. -/
def tryMatch (l : List Char) : Option (SrcMatch × List Char) :=
  match dropLit "source".data l with
  | none => none
  | some r1 =>
    let w1 := r1.takeWhile isPySpace
    match r1.dropWhile isPySpace with
    | [] => none
    | e :: r3 =>
      if e = '=' then
        let w2 := r3.takeWhile isPySpace
        match r3.dropWhile isPySpace with
        | [] => none
        | q :: r4 =>
          if q = '"' then
            match r4 with
            | [] => none
            | c0 :: r5 =>
              if c0 = '\n' then none
              else
                let mid := r5.takeWhile (fun c => c ≠ '"' && c ≠ '\n')
                match r5.dropWhile (fun c => c ≠ '"' && c ≠ '\n') with
                | [] => none
                | q2 :: r6 =>
                  if q2 = '"' then some (⟨w1, w2, c0 :: mid⟩, r6) else none
          else none
      else none

/-- The replacement callback `change_module_source_sub`: if the matched
source contains `../modules`, strip every `../`, prefix
`git::<target_repository>//`, and append `?ref=<tag>` when a tag is
given; otherwise reproduce the match unchanged. -/
def change_module_source_sub (target : List Char) (tag : Option (List Char))
    (m : SrcMatch) : List Char :=
  if hasSub "../modules".data m.content then
    let ms := pyReplace "../".data [] m.content
    let ms := "git::".data ++ target ++ "//".data ++ ms
    let ms :=
      match tag with
      | some t => ms ++ "?ref=".data ++ t
      | none => ms
    srcGroup1 m ++ ms ++ ['"']
  else srcMatched m

/-- `re.sub`: leftmost non-overlapping matches, each replaced by the
callback's result; fuel is the input length (each match consumes at least
one character). -/
def subSourceGo (repl : SrcMatch → List Char) : Nat → List Char → List Char
  | 0, l => l
  | _+1, [] => []
  | fuel+1, c :: cs =>
    match tryMatch (c :: cs) with
    | some (m, r2) => repl m ++ subSourceGo repl fuel r2
    | none => c :: subSourceGo repl fuel cs

/-- `re.sub(source_re, change_module_source_sub, line)` for one line of
the file processed by `change_module_source`. -/
def change_module_source_line (target : List Char) (tag : Option (List Char))
    (line : List Char) : List Char :=
  subSourceGo (change_module_source_sub target tag) line.length line

/-! ### The terraform retry loop (`FastDialogs.run_terraform_until_ok`) -/

/-- Outcome of the retry loop: `success` = `return True`, `retreat` =
`return False`, `quitProcess` = the operator confirmed the quit dialog
and `maybe_quit` terminated the process. -/
inductive TfOutcome where
  | success : TfOutcome
  | retreat : TfOutcome
  | quitProcess : TfOutcome
deriving DecidableEq

/-- The `while True` loop of `run_terraform_until_ok`.  Iteration `i`
runs the command and the dialog concurrently; the oracle returns the
process exit code and the dialog result (`some true` = Ok/Retry,
`some false` = Previous, `none` = Quit).  On Quit, `maybe_quit` asks for
confirmation (`quitConfirm`); if declined, execution falls through to
`if not result`, which is true for `None`, so the loop returns `False`. -/
def run_tf_go (oracle : Nat → Int × Option Bool) (quitConfirm : Nat → Bool) :
    Nat → Nat → Option TfOutcome
  | 0, _ => none
  | fuel+1, i =>
    let rc := (oracle i).1
    match (oracle i).2 with
    | none => if quitConfirm i then some .quitProcess else some .retreat
    | some r =>
      if rc = 0 && r then some .success
      else if !r then some .retreat
      else run_tf_go oracle quitConfirm fuel (i + 1)

/-- `run_terraform_until_ok(cmd, dir)`: every iteration re-runs the same
`cmd` in the same `dir` (the oracle is always consulted at exactly these
arguments). -/
def run_terraform_until_ok (cmd : List String) (dir : String)
    (oracle : List String → String → Nat → Int × Option Bool)
    (quitConfirm : Nat → Bool) (fuel : Nat) : Option TfOutcome :=
  run_tf_go (oracle cmd dir) quitConfirm fuel 0

/-! ### Credential token steps -/

/-- The process environment, insertion-ordered. -/
abbrev Env := List (String × String)

/-- `os.getenv(k)`. -/
def getenv (env : Env) (k : String) : Option String := pyLookup env k

/-- `os.environ[k] = v`. -/
def setenv (env : Env) (k : String) (v : String) : Env := pyUpdate env k v

/-- Python truthiness of an `os.getenv` result: `None` and the empty
string are falsy. -/
def envTruthy : Option String → Bool
  | none => false
  | some s => s ≠ ""

/-- What `input_dialog` can return to its caller: the typed text (Ok) or
`False` (Previous).  A Quit keypress is handled inside `input_dialog`'s
own loop via `maybe_quit` and never returned. -/
inductive InputOutcome where
  | text (s : String) : InputOutcome
  | previous : InputOutcome

/-- Result of a token step: the navigation value returned to
`run_wizard`, the process environment afterwards, and whether the masked
input dialog was shown. -/
structure TokenStepResult where
  advance : Bool
  env : Env
  prompted : Bool
deriving DecidableEq

/-- `FastGitlabConfigurator.select_gitlab_token`. -/
def select_gitlab_token (env : Env) (outcome : InputOutcome) : TokenStepResult :=
  if !(envTruthy (getenv env "GITLAB_TOKEN")) then
    match outcome with
    | .previous => ⟨true, env, true⟩
    | .text s =>
      if s ≠ "" then ⟨true, setenv env "GITLAB_TOKEN" s, true⟩
      else ⟨true, env, true⟩
  else ⟨true, env, false⟩

/-- `FastGithubConfigurator.select_github_token`. -/
def select_github_token (env : Env) (outcome : InputOutcome) : TokenStepResult :=
  if !(envTruthy (getenv env "GITHUB_TOKEN")) then
    match outcome with
    | .previous => ⟨true, env, true⟩
    | .text s =>
      if s ≠ "" then ⟨true, setenv env "GITHUB_TOKEN" s, true⟩
      else ⟨true, env, true⟩
  else ⟨true, env, false⟩

/-! ### The wizard driver (`FastDialogs.run_wizard`) -/

/-- Python list indexing `l[i]`: non-negative indices from the front,
negative indices from the back (`l[-1]` is the last element), out of
range raises `IndexError` (modelled as `none`). -/
def pyIdx {α : Type} (l : List α) (i : Int) : Option α :=
  if 0 ≤ i then l.get? i.toNat
  else if (-i).toNat ≤ l.length then l.get? (l.length - (-i).toNat)
  else none

/-- A step handler: reads the shared configuration, returns the
navigation value (`go_to_next`) and the mutated configuration. -/
abbrev StepHandler := Config → Bool × Config

/-- How a `run_wizard` execution ends within the given fuel. -/
inductive WizResult where
  | finished (cfg : Config) : WizResult
  | indexError : WizResult
  | outOfFuel (i : Int) (cfg : Config) : WizResult

/-- The `while True` loop of `run_wizard`: index the step list with the
current (integer) cursor, invoke the handler, increment the cursor on a
truthy result and decrement it otherwise, and stop when the cursor equals
the list length.  Also returns the list of cursor values at which
handlers were invoked, in order. -/
def run_wizard_go (steps : List StepHandler) :
    Nat → Int → Config → List Int → List Int × WizResult
  | 0, i, cfg, visited => (visited.reverse, .outOfFuel i cfg)
  | fuel+1, i, cfg, visited =>
    match pyIdx steps i with
    | none => ((i :: visited).reverse, .indexError)
    | some h =>
      let r := h cfg
      let i' := if r.1 then i + 1 else i - 1
      if i' = (steps.length : Int) then ((i :: visited).reverse, .finished r.2)
      else run_wizard_go steps fuel i' r.2 (i :: visited)

/-- `run_wizard`: the loop starting at `dialog_index = 0`. -/
def run_wizard (steps : List StepHandler) (fuel : Nat) (cfg : Config) :
    List Int × WizResult :=
  run_wizard_go steps fuel 0 cfg []

/-- A wizard whose step at index 0 signals retreat (e.g. the operator
presses Previous in the first dialog); the handler records its identity
in the configuration. -/
def step_zero : StepHandler := fun cfg => (false, pyUpdate cfg "ran" (.str "zero"))

/-- A final wizard step that records its identity and advances. -/
def step_last : StepHandler := fun cfg => (true, pyUpdate cfg "ran" (.str "last"))

/-! ### The gitlab repositories step
(`FastGitlabConfigurator.select_gitlab_repositories`) -/

/-- `FastDialogs.repositories`. -/
def repositories : List (String × String) :=
  [("modules", "Fabric modules"), ("bootstrap", "Bootstrap stage"),
   ("cicd", "CI/CD setup stage"), ("resman", "Resource management stage"),
   ("networking", "Networking setup stage"),
   ("security", "Security configuration stage"),
   ("data-platform", "Data platform stage"),
   ("project-factory", "Project factory stage")]

/-- Python truthiness of a configuration value. -/
def hvTruthy : HValue → Bool
  | .null => false
  | .bool b => b
  | .int n => n ≠ 0
  | .str s => s ≠ ""
  | .list xs => ¬ xs.isEmpty
  | .dict kvs => ¬ kvs.isEmpty
  | .unsupported => true

/-- Python `d[k]`, raising `KeyError` when the key is missing. -/
def pyGetItem (cfg : Config) (k : String) : Except String HValue :=
  match pyLookup cfg k with
  | some v => .ok v
  | none => .error ("KeyError: " ++ k)

/-- Python `d.pop(k)` with no default: remove the key, raising `KeyError`
when it is missing. -/
def pyPop {α : Type} (d : List (String × α)) (k : String) :
    Except String (List (String × α)) :=
  if hasKey d k then .ok (d.filter (fun kv => kv.1 ≠ k)) else .error ("KeyError: " ++ k)

/-- The `values[k] = f"{self.repositories[k]}:"` loop: looking up each
key in the class-level `repositories` dict, raising `KeyError` for an
unknown key. -/
def buildValues : List (String × HValue) → Except String (List (String × String))
  | [] => .ok []
  | (k, _) :: tl =>
    match pyLookup repositories k with
    | none => .error ("KeyError: " ++ k)
    | some desc => (buildValues tl).map (fun r => (k, desc ++ ":") :: r)

/-- `FastGitlabConfigurator.select_gitlab_repositories`.  The
`multi_input_dialog` outcome is abstracted as a parameter: `none` =
Previous, `some choice` = the per-repository texts the operator
submitted.  Exceptions model uncaught Python exceptions. -/
def select_gitlab_repositories (cfg : Config)
    (dialog : Option (List (String × String))) : Except String (Bool × Config) := do
  let u ← pyGetItem cfg "use_upstream"
  let cfg ←
    if hvTruthy u then do
      let gr ← pyGetItem cfg "gitlab_repositories"
      match gr with
      | .dict entries => do
        let entries' ← pyPop entries "modules"
        pure (pyUpdate cfg "gitlab_repositories" (.dict entries'))
      | _ => Except.error "AttributeError: pop"
    else pure cfg
  let gr ← pyGetItem cfg "gitlab_repositories"
  match gr with
  | .dict entries => do
    let _values ← buildValues entries
    match dialog with
    | some choice =>
      pure (true, pyUpdate cfg "gitlab_repositories"
        (.dict (choice.map (fun kv => (kv.1, HValue.str kv.2)))))
    | none => pure (false, cfg)
  | _ => Except.error "TypeError: items"

/-- The `gitlab_repositories` dict set up by
`FastGitlabConfigurator.__init__`: every repository key mapped to
itself. -/
def gitlab_repositories_init : List (String × HValue) :=
  repositories.map (fun kv => (kv.1, HValue.str kv.1))

/-- After skipping whitespace, the input is exhausted or stops at a
closing brace — the two conditions under which an attribute run ends. -/
def attrsEnd (l : List Char) : Bool :=
  match skipWs l with
  | [] => true
  | c :: _ => c = rbrace

/-- What `parseValue` leaves unconsumed of a `print_hcl` statement-level
rendering: the newline after a scalar; the newline of `}\n` plus the
final newline after a nested block. -/
def stmtTrail : HValue → List Char
  | .dict _ => ['\n', '\n']
  | _ => ['\n']

/- ------------------------------------------------------------------ -/
/- Theorems.                                                           -/
/- ------------------------------------------------------------------ -/

/-! ### Character facts -/

theorem char_eq_iff_toNat (c d : Char) : c = d ↔ c.toNat = d.toNat := by
  constructor
  · intro h; rw [h]
  · intro h; cases c; cases d
    simp only [Char.toNat] at h
    congr 1
    exact UInt32.toNat.inj h

theorem isWsChar_iff (c : Char) :
    isWsChar c = true ↔ c.toNat = 32 ∨ c.toNat = 9 ∨ c.toNat = 10 ∨ c.toNat = 13 := by
  simp only [isWsChar, Bool.or_eq_true, decide_eq_true_eq, char_eq_iff_toNat,
    show (' ' : Char).toNat = 32 from by decide,
    show ('\t' : Char).toNat = 9 from by decide,
    show ('\n' : Char).toNat = 10 from by decide,
    show ('\r' : Char).toNat = 13 from by decide]
  tauto

theorem isDigitChar_iff (c : Char) :
    isDigitChar c = true ↔ 48 ≤ c.toNat ∧ c.toNat ≤ 57 := by
  simp only [isDigitChar, Bool.and_eq_true, decide_eq_true_eq]

theorem isAsciiLetter_iff (c : Char) :
    isAsciiLetter c = true ↔
      (65 ≤ c.toNat ∧ c.toNat ≤ 90) ∨ (97 ≤ c.toNat ∧ c.toNat ≤ 122) := by
  simp only [isAsciiLetter, Bool.or_eq_true, Bool.and_eq_true, decide_eq_true_eq]

theorem isIdentChar_iff (c : Char) :
    isIdentChar c = true ↔
      (65 ≤ c.toNat ∧ c.toNat ≤ 90) ∨ (97 ≤ c.toNat ∧ c.toNat ≤ 122) ∨
      (48 ≤ c.toNat ∧ c.toNat ≤ 57) ∨ c.toNat = 95 ∨ c.toNat = 45 := by
  simp only [isIdentChar, Bool.or_eq_true, isAsciiLetter_iff, isDigitChar_iff,
    decide_eq_true_eq, char_eq_iff_toNat,
    show ('_' : Char).toNat = 95 from by decide,
    show ('-' : Char).toNat = 45 from by decide]
  tauto

theorem isIdentStartChar_iff (c : Char) :
    isIdentStartChar c = true ↔
      (65 ≤ c.toNat ∧ c.toNat ≤ 90) ∨ (97 ≤ c.toNat ∧ c.toNat ≤ 122) ∨
      c.toNat = 95 := by
  simp only [isIdentStartChar, Bool.or_eq_true, isAsciiLetter_iff,
    decide_eq_true_eq, char_eq_iff_toNat,
    show ('_' : Char).toNat = 95 from by decide]
  tauto

theorem isIdentStartChar_isIdentChar {c : Char} (h : isIdentStartChar c = true) :
    isIdentChar c = true := by
  rw [isIdentStartChar_iff] at h
  rw [isIdentChar_iff]
  tauto

theorem identChar_not_ws {c : Char} (h : isIdentChar c = true) :
    isWsChar c = false := by
  rw [isIdentChar_iff] at h
  rw [← Bool.not_eq_true, isWsChar_iff]
  omega

theorem identStart_not_ws {c : Char} (h : isIdentStartChar c = true) :
    isWsChar c = false :=
  identChar_not_ws (isIdentStartChar_isIdentChar h)

theorem digit_not_identEnd {c : Char} (h : isDigitChar c = true) :
    isIdentChar c = true := by
  rw [isDigitChar_iff] at h
  rw [isIdentChar_iff]
  omega

/-! ### Whitespace, literal and digit-run helpers -/

theorem skipWs_cons_ws {c : Char} (h : isWsChar c = true) (l : List Char) :
    skipWs (c :: l) = skipWs l := by
  simp [skipWs, h]

theorem skipWs_cons_not_ws {c : Char} (h : isWsChar c = false) (l : List Char) :
    skipWs (c :: l) = c :: l := by
  simp [skipWs, h]

theorem skipWs_append_ws {w : List Char} (hw : ∀ c ∈ w, isWsChar c = true)
    (l : List Char) : skipWs (w ++ l) = skipWs l := by
  induction w with
  | nil => rfl
  | cons c t ih =>
    rw [List.cons_append, skipWs_cons_ws (hw c (by simp))]
    exact ih (fun d hd => hw d (by simp [hd]))

theorem skipWs_pad (i : Nat) (l : List Char) : skipWs (pad i ++ l) = skipWs l := by
  apply skipWs_append_ws
  intro c hc
  simp only [pad] at hc
  rw [List.eq_of_mem_replicate hc]
  decide

theorem skipWs_idem (l : List Char) : skipWs (skipWs l) = skipWs l := by
  induction l with
  | nil => rfl
  | cons c t ih =>
    by_cases h : isWsChar c = true
    · rw [skipWs_cons_ws h, ih]
    · rw [Bool.not_eq_true] at h
      rw [skipWs_cons_not_ws h, skipWs_cons_not_ws h]

theorem dropLit_self_append (p l : List Char) : dropLit p (p ++ l) = some l := by
  induction p with
  | nil => rfl
  | cons c t ih => simp [dropLit, ih]

theorem dropLit_eq_some {p l r : List Char} (h : dropLit p l = some r) :
    l = p ++ r := by
  induction p generalizing l with
  | nil =>
    simp only [dropLit, Option.some.injEq] at h
    simp [h]
  | cons c t ih =>
    match l with
    | [] => simp [dropLit] at h
    | d :: tl =>
      rw [dropLit] at h
      by_cases hcd : c = d
      · subst hcd
        simp only [if_pos rfl] at h
        simp [ih h]
      · simp [hcd] at h

theorem takeWhile_append_all {p : Char → Bool} {a : List Char}
    (ha : ∀ c ∈ a, p c = true) (b : List Char)
    (hb : ∀ c, b.head? = some c → p c = false) :
    (a ++ b).takeWhile p = a ∧ (a ++ b).dropWhile p = b := by
  induction a with
  | nil =>
    simp only [List.nil_append]
    cases b with
    | nil => simp
    | cons c t => simp [List.takeWhile, List.dropWhile, hb c rfl]
  | cons c t ih =>
    have hc : p c = true := ha c (by simp)
    have ih' := ih (fun d hd => ha d (by simp [hd]))
    simp [List.takeWhile, List.dropWhile, hc, ih'.1, ih'.2]

theorem digitChar_spec {n : Nat} (h : n < 10) :
    isDigitChar (digitChar n) = true ∧ (digitChar n).toNat = 48 + n := by
  interval_cases n <;> exact ⟨by decide, by decide⟩

theorem digitsVal_append_digit (l : List Char) (c : Char) :
    digitsVal (l ++ [c]) = 10 * digitsVal l + (c.toNat - 48) := by
  simp [digitsVal, List.foldl_append]

theorem natDecGo_spec : ∀ fuel n, n < fuel →
    natDecGo n fuel ≠ [] ∧ (∀ c ∈ natDecGo n fuel, isDigitChar c = true) ∧
      digitsVal (natDecGo n fuel) = n := by
  intro fuel
  induction fuel with
  | zero => omega
  | succ f ih =>
    intro n hn
    by_cases h10 : n < 10
    · refine ⟨by simp [natDecGo, h10], ?_, ?_⟩
      · intro c hc
        simp only [natDecGo, if_pos h10, List.mem_singleton] at hc
        rw [hc]
        exact (digitChar_spec h10).1
      · simp only [natDecGo, if_pos h10]
        have : digitsVal [digitChar n] = (digitChar n).toNat - 48 := by
          simp [digitsVal]
        rw [this, (digitChar_spec h10).2]
        omega
    · have hdiv : n / 10 < f := by
        have h1 : n / 10 < n := Nat.div_lt_self (by omega) (by omega)
        omega
      obtain ⟨ihne, ihall, ihval⟩ := ih (n / 10) hdiv
      have hmod : n % 10 < 10 := Nat.mod_lt _ (by omega)
      refine ⟨by simp [natDecGo, h10], ?_, ?_⟩
      · intro c hc
        simp only [natDecGo, if_neg h10, List.mem_append, List.mem_singleton] at hc
        rcases hc with hc | hc
        · exact ihall c hc
        · rw [hc]; exact (digitChar_spec hmod).1
      · simp only [natDecGo, if_neg h10]
        rw [digitsVal_append_digit, ihval, (digitChar_spec hmod).2]
        omega

theorem natDec_ne_nil (n : Nat) : natDec n ≠ [] :=
  (natDecGo_spec (n + 1) n (by omega)).1

theorem natDec_all_digits (n : Nat) : ∀ c ∈ natDec n, isDigitChar c = true :=
  (natDecGo_spec (n + 1) n (by omega)).2.1

theorem natDec_val (n : Nat) : digitsVal (natDec n) = n :=
  (natDecGo_spec (n + 1) n (by omega)).2.2

theorem parseDigits_natDec (n : Nat) (rest : List Char)
    (hrest : ∀ c, rest.head? = some c → isDigitChar c = false) :
    parseDigits (natDec n ++ rest) = some (n, rest) := by
  obtain ⟨ht, hd⟩ := takeWhile_append_all (natDec_all_digits n) rest hrest
  simp only [parseDigits, ht, hd, List.isEmpty_iff]
  rw [if_neg (natDec_ne_nil n), natDec_val]

/-! ### Escaping lemmas -/

theorem safeChar_iff (c : Char) :
    safeChar c = true ↔
      c.toNat ≠ 92 ∧ c.toNat ≠ 10 ∧ c.toNat ≠ 13 ∧ c.toNat ≠ 36 ∧ c.toNat ≠ 37 := by
  simp only [safeChar, Bool.and_eq_true, ne_eq, decide_not, Bool.not_eq_true',
    decide_eq_false_iff_not, char_eq_iff_toNat,
    show ('\\' : Char).toNat = 92 from by decide,
    show ('\n' : Char).toNat = 10 from by decide,
    show ('\r' : Char).toNat = 13 from by decide,
    show ('$' : Char).toNat = 36 from by decide,
    show ('%' : Char).toNat = 37 from by decide]
  tauto

theorem escQuotes_eq_nil {l : List Char} (h : escQuotes l = []) : l = [] := by
  cases l with
  | nil => rfl
  | cons c tl =>
    rw [escQuotes] at h
    by_cases hc : c = '"'
    · rw [if_pos hc] at h; simp at h
    · rw [if_neg hc] at h; simp at h

theorem escQuotes_head_ne {l : List Char} {c : Char} {t : List Char}
    (h : escQuotes l = c :: t) : c ≠ '"' := by
  match l with
  | [] => simp [escQuotes] at h
  | a :: tl =>
    rw [escQuotes] at h
    by_cases ha : a = '"'
    · rw [if_pos ha] at h
      injection h with h1 _
      rw [← h1]
      decide
    · rw [if_neg ha] at h
      injection h with h1 _
      rw [← h1]
      exact ha

theorem unesc_escQuotes (l : List Char) : unescQuotes (escQuotes l) = l := by
  induction l with
  | nil => rfl
  | cons c tl ih =>
    rw [escQuotes]
    by_cases hc : c = '"'
    · subst hc
      rw [if_pos rfl, unescQuotes]
      simp [ih]
    · rw [if_neg hc]
      cases htl : escQuotes tl with
      | nil =>
        rw [escQuotes_eq_nil htl, unescQuotes]
      | cons d t2 =>
        have hd : d ≠ '"' := escQuotes_head_ne htl
        rw [unescQuotes, if_neg (by simp [hd]), ← htl, ih]

theorem noNaked_escQuotes (l : List Char) : noNakedQuote (escQuotes l) = true := by
  induction l with
  | nil => rfl
  | cons c tl ih =>
    rw [escQuotes]
    by_cases hc : c = '"'
    · subst hc
      rw [if_pos rfl, noNakedQuote]
      simp [ih]
    · rw [if_neg hc]
      cases htl : escQuotes tl with
      | nil =>
        rw [noNakedQuote]
        simp [hc]
      | cons d t2 =>
        have hd : d ≠ '"' := escQuotes_head_ne htl
        rw [noNakedQuote, if_neg (by simp [hd])]
        simp only [Bool.and_eq_true, decide_eq_true_eq]
        exact ⟨hc, by rw [← htl]; exact ih⟩

theorem parseStringBody_esc {l : List Char}
    (hl : ∀ c ∈ l, safeChar c = true) (rest : List Char) :
    parseStringBody (escQuotes l ++ '"' :: rest) = some (l, rest) := by
  induction l with
  | nil =>
    rw [escQuotes, List.nil_append, parseStringBody.eq_def]
    simp
  | cons c tl ih =>
    have hc := hl c (by simp)
    rw [safeChar_iff] at hc
    have ih' := ih (fun d hd => hl d (by simp [hd]))
    have hbs : c ≠ '\\' := by intro he; subst he; exact hc.1 (by decide)
    have h1 : c ≠ '\n' := by intro he; subst he; exact hc.2.1 (by decide)
    have h2 : c ≠ '\r' := by intro he; subst he; exact hc.2.2.1 (by decide)
    rw [escQuotes]
    by_cases hq : c = '"'
    · subst hq
      rw [if_pos rfl, List.cons_append, List.cons_append, parseStringBody.eq_def]
      simp [ih']
    · rw [if_neg hq, List.cons_append, parseStringBody.eq_def]
      simp [hq, hbs, h1, h2, ih']

/-! ### Parsing back the scalar renderings -/

theorem pdepth_pos (v : HValue) : 1 ≤ pdepth v := by
  cases v <;> simp [pdepth]

theorem pdepthList_pos (xs : List HValue) : 1 ≤ pdepthList xs := by
  cases xs <;> simp [pdepthList]

theorem pdepthEntries_pos (kvs : List (String × HValue)) : 1 ≤ pdepthEntries kvs := by
  cases kvs with
  | nil => simp [pdepthEntries]
  | cons kv tl =>
    cases kv
    simp [pdepthEntries]

theorem parseValue_succ (f : Nat) (l : List Char) :
    parseValue (f + 1) l = parseValueF (parseListElems f) (parseAttrs f) l := rfl

theorem parseListElems_succ (f : Nat) (l : List Char) :
    parseListElems (f + 1) l = parseListElemsF (parseValue f) (parseListElems f) l := rfl

theorem parseAttrs_succ (f : Nat) (l : List Char) :
    parseAttrs (f + 1) l = parseAttrsF (parseValue f) (parseAttrs f) l := rfl

theorem digit_route {c : Char} (h : isDigitChar c = true) :
    c ≠ '"' ∧ c ≠ '[' ∧ c ≠ lbrace ∧ c ≠ '-' ∧ isWsChar c = false ∧ c ≠ ']' := by
  rw [isDigitChar_iff] at h
  refine ⟨?_, ?_, ?_, ?_, ?_, ?_⟩
  · intro he; subst he; revert h; decide
  · intro he; subst he; revert h; decide
  · intro he; subst he; revert h; decide
  · intro he; subst he; revert h; decide
  · rw [← Bool.not_eq_true, isWsChar_iff]; omega
  · intro he; subst he; revert h; decide

theorem tokenEnd_not_digit {rest : List Char} (h : tokenEnd rest = true) :
    ∀ c, rest.head? = some c → isDigitChar c = false := by
  intro c hc
  cases rest with
  | nil => simp at hc
  | cons d t =>
    simp only [List.head?_cons, Option.some.injEq] at hc
    subst hc
    rw [tokenEnd, Bool.not_eq_true'] at h
    by_contra hdig
    rw [Bool.not_eq_false] at hdig
    rw [digit_not_identEnd hdig] at h
    exact absurd h (by decide)

theorem scalar_render_head (v : HValue) (hv : wfScalar v = true) :
    ∃ c t, print_hcl_scalar v = c :: t ∧ isWsChar c = false ∧ c ≠ ']' := by
  cases v with
  | null => exact ⟨'n', ['u', 'l', 'l'], rfl, by decide, by decide⟩
  | bool b =>
    cases b
    · exact ⟨'f', ['a', 'l', 's', 'e'], rfl, by decide, by decide⟩
    · exact ⟨'t', ['r', 'u', 'e'], rfl, by decide, by decide⟩
  | int n =>
    cases n with
    | ofNat m =>
      cases hnat : natDec m with
      | nil => exact absurd hnat (natDec_ne_nil m)
      | cons c t =>
        have hdig : isDigitChar c = true := by
          apply natDec_all_digits m
          rw [hnat]; simp
        exact ⟨c, t, by rw [print_hcl_scalar, intDec, hnat], (digit_route hdig).2.2.2.2.1,
          (digit_route hdig).2.2.2.2.2⟩
    | negSucc m =>
      exact ⟨'-', natDec (m + 1), by rw [print_hcl_scalar, intDec], by decide, by decide⟩
  | str s => exact ⟨'"', escQuotes s.data ++ ['"'], rfl, by decide, by decide⟩
  | list xs => exact ⟨'[', print_hcl_scalar_list xs true ++ [']'], rfl, by decide, by decide⟩
  | dict kvs => rw [wfScalar] at hv; exact absurd hv (by decide)
  | unsupported => rw [wfScalar] at hv; exact absurd hv (by decide)

theorem parseListElems_congr {l l' : List Char} (fuel : Nat)
    (h : skipWs l = skipWs l') : parseListElems fuel l = parseListElems fuel l' := by
  cases fuel with
  | zero => rfl
  | succ f =>
    rw [parseListElems_succ, parseListElems_succ]
    unfold parseListElemsF
    rw [h]

mutual

theorem parseValue_scalar : ∀ (v : HValue), wfScalar v = true →
    ∀ (fuel : Nat) (rest : List Char), pdepth v ≤ fuel → tokenEnd rest = true →
    parseValue fuel (print_hcl_scalar v ++ rest) = some (v, rest) := by
  intro v hv fuel rest hfuel hrest
  cases fuel with
  | zero => exact absurd (Nat.le_trans (pdepth_pos v) hfuel) (by omega)
  | succ f =>
    cases v with
    | null =>
      show (if tokenEnd rest then some (HValue.null, rest) else none) = some (.null, rest)
      rw [if_pos hrest]
    | bool b =>
      cases b
      · show (if tokenEnd rest then some (HValue.bool false, rest) else none) =
          some (.bool false, rest)
        rw [if_pos hrest]
      · show (if tokenEnd rest then some (HValue.bool true, rest) else none) =
          some (.bool true, rest)
        rw [if_pos hrest]
    | str s =>
      have hsafe : ∀ c ∈ s.data, safeChar c = true := by
        rw [wfScalar, safeStr] at hv
        exact fun c hc => List.all_eq_true.mp hv c hc
      show (parseStringBody ((escQuotes s.data ++ ['"']) ++ rest)).map
          (fun p => (HValue.str (String.mk p.1), p.2)) = some (.str s, rest)
      rw [List.append_assoc, show ['"'] ++ rest = '"' :: rest from rfl,
        parseStringBody_esc hsafe]
      rfl
    | int n =>
      cases n with
      | ofNat m =>
        cases hnat : natDec m with
        | nil => exact absurd hnat (natDec_ne_nil m)
        | cons c t =>
          have hdig : isDigitChar c = true := by
            apply natDec_all_digits m
            rw [hnat]; simp
          obtain ⟨r1, r2, r3, r4, r5, _⟩ := digit_route hdig
          rw [print_hcl_scalar, intDec, hnat, List.cons_append, parseValue_succ]
          unfold parseValueF
          rw [skipWs_cons_not_ws r5]
          simp only [if_neg r1, if_neg r2, if_neg r3, if_neg r4, if_pos hdig]
          rw [← List.cons_append, ← hnat,
            parseDigits_natDec m rest (tokenEnd_not_digit hrest)]
          simp only [if_pos hrest]
          rfl
      | negSucc m =>
        rw [print_hcl_scalar, intDec, List.cons_append, parseValue_succ]
        unfold parseValueF
        rw [skipWs_cons_not_ws (by decide)]
        simp only [if_neg (show ¬('-' : Char) = '"' by decide),
          if_neg (show ¬('-' : Char) = '[' by decide),
          if_neg (show ¬('-' : Char) = lbrace by decide),
          if_pos (show ('-' : Char) = '-' from rfl)]
        rw [parseDigits_natDec (m + 1) rest (tokenEnd_not_digit hrest)]
        simp only [if_pos hrest, Option.some.injEq, Prod.mk.injEq, and_true]
        rw [Int.negSucc_eq]
        simp
    | list xs =>
      have hxs : wfScalarList xs = true := by rw [wfScalar] at hv; exact hv
      have hf : pdepthList xs ≤ f := by rw [pdepth] at hfuel; omega
      show (parseListElems f ((print_hcl_scalar_list xs true ++ [']']) ++ rest)).map
          (fun p => (HValue.list p.1, p.2)) = some (.list xs, rest)
      rw [List.append_assoc, show ([']'] ++ rest : List Char) = ']' :: rest from rfl,
        parseListElems_scalars xs hxs f rest hf]
      rfl
    | dict kvs => rw [wfScalar] at hv; exact absurd hv (by decide)
    | unsupported => rw [wfScalar] at hv; exact absurd hv (by decide)

theorem parseListElems_scalars : ∀ (xs : List HValue), wfScalarList xs = true →
    ∀ (fuel : Nat) (rest : List Char), pdepthList xs ≤ fuel →
    parseListElems fuel (print_hcl_scalar_list xs true ++ ']' :: rest) = some (xs, rest) := by
  intro xs hxs fuel rest hfuel
  cases fuel with
  | zero => exact absurd (Nat.le_trans (pdepthList_pos xs) hfuel) (by omega)
  | succ f =>
    cases xs with
    | nil => rfl
    | cons v tl =>
      have hw : wfScalar v = true ∧ wfScalarList tl = true := by
        rw [wfScalarList] at hxs
        simpa [Bool.and_eq_true] using hxs
      obtain ⟨c, t, hct, hws, hne⟩ := scalar_render_head v hw.1
      have hpv : pdepth v ≤ f := by rw [pdepthList] at hfuel; omega
      have hptl : pdepthList tl ≤ f := by rw [pdepthList] at hfuel; omega
      rw [print_hcl_scalar_list, if_pos rfl, List.nil_append, List.append_assoc]
      rw [hct, List.cons_append, parseListElems_succ]
      unfold parseListElemsF
      rw [skipWs_cons_not_ws hws]
      simp only [if_neg hne]
      rw [← List.cons_append, ← hct]
      cases tl with
      | nil =>
        rw [print_hcl_scalar_list, List.nil_append,
          parseValue_scalar v hw.1 f (']' :: rest) hpv (by rfl)]
        rfl
      | cons w tw =>
        rw [show print_hcl_scalar_list (w :: tw) false =
            ',' :: ' ' :: print_hcl_scalar_list (w :: tw) true from by
          rw [print_hcl_scalar_list, print_hcl_scalar_list]
          rfl]
        rw [List.cons_append, List.cons_append,
          parseValue_scalar v hw.1 f
            (',' :: ' ' :: (print_hcl_scalar_list (w :: tw) true ++ ']' :: rest)) hpv
            (by rfl)]
        show (parseListElems f
            (' ' :: (print_hcl_scalar_list (w :: tw) true ++ ']' :: rest))).map
            (fun p => (v :: p.1, p.2)) = some (v :: w :: tw, rest)
        rw [parseListElems_congr f (skipWs_cons_ws (by decide) _),
          parseListElems_scalars (w :: tw) hw.2 f rest hptl]
        rfl

end

/-! ### Parsing back statement-level renderings -/

theorem parseValue_congr {l l' : List Char} (fuel : Nat)
    (h : skipWs l = skipWs l') : parseValue fuel l = parseValue fuel l' := by
  cases fuel with
  | zero => rfl
  | succ f =>
    rw [parseValue_succ, parseValue_succ]
    unfold parseValueF
    rw [h]

theorem parseAttrs_congr {l l' : List Char} (fuel : Nat)
    (h : skipWs l = skipWs l') : parseAttrs fuel l = parseAttrs fuel l' := by
  cases fuel with
  | zero => rfl
  | succ f =>
    rw [parseAttrs_succ, parseAttrs_succ]
    unfold parseAttrsF
    rw [h]

theorem attrsEnd_of_nil {l : List Char} (h : skipWs l = []) : attrsEnd l = true := by
  unfold attrsEnd
  rw [h]

theorem attrsEnd_of_rbrace {l t : List Char} (h : skipWs l = rbrace :: t) :
    attrsEnd l = true := by
  unfold attrsEnd
  rw [h]
  simp

theorem identStart_ne_rbrace {c : Char} (h : isIdentStartChar c = true) :
    c ≠ rbrace := by
  rw [isIdentStartChar_iff] at h
  intro he
  subst he
  revert h
  decide

theorem isIdentKey_spec {k : String} (h : isIdentKey k = true) :
    ∃ c ks, k.data = c :: ks ∧ isIdentStartChar c = true ∧
      ∀ d ∈ k.data, isIdentChar d = true := by
  unfold isIdentKey at h
  cases hd : k.data with
  | nil => rw [hd] at h; simp at h
  | cons c ks =>
    rw [hd] at h
    simp only [Bool.and_eq_true] at h
    refine ⟨c, ks, rfl, h.1, ?_⟩
    intro d hdm
    rcases List.mem_cons.mp hdm with he | hm
    · subst he; exact isIdentStartChar_isIdentChar h.1
    · exact List.all_eq_true.mp h.2 d hm

theorem stmtTrail_ws (v : HValue) : ∀ c ∈ stmtTrail v, isWsChar c = true := by
  cases v <;> intro c hc <;> simp [stmtTrail] at hc <;> subst hc <;> decide

theorem parseValue_stmt_scalar {v : HValue} (hv : wfScalar v = true)
    (fuel i : Nat) (rest : List Char) (hfuel : pdepth v ≤ fuel)
    (hnd : print_hcl v i = print_hcl_scalar v ++ ['\n'])
    (hst : stmtTrail v = ['\n']) :
    parseValue fuel (print_hcl v i ++ rest) = some (v, stmtTrail v ++ rest) := by
  rw [hnd, hst, List.append_assoc]
  rw [show (['\n'] ++ rest : List Char) = '\n' :: rest from rfl]
  exact parseValue_scalar v hv fuel ('\n' :: rest) hfuel (by rfl)

mutual

theorem parseValue_stmt : ∀ (v : HValue), wfValue v = true →
    ∀ (fuel i : Nat) (rest : List Char), pdepth v ≤ fuel → 1 ≤ i →
    parseValue fuel (print_hcl v i ++ rest) = some (v, stmtTrail v ++ rest) := by
  intro v hv fuel i rest hfuel hi
  cases v with
  | null => exact parseValue_stmt_scalar hv fuel i rest hfuel rfl rfl
  | bool b => exact parseValue_stmt_scalar hv fuel i rest hfuel rfl rfl
  | int n => exact parseValue_stmt_scalar hv fuel i rest hfuel rfl rfl
  | str s => exact parseValue_stmt_scalar hv fuel i rest hfuel rfl rfl
  | list xs => exact parseValue_stmt_scalar hv fuel i rest hfuel rfl rfl
  | unsupported => exact absurd (hv : wfScalar .unsupported = true) (by decide)
  | dict kvs =>
    have hkvs : wfEntries kvs = true := hv
    cases i with
    | zero => omega
    | succ j =>
      cases fuel with
      | zero => exact absurd (Nat.le_trans (pdepth_pos _) hfuel) (by omega)
      | succ f =>
        have hf : pdepthEntries kvs ≤ f := by
          have he : pdepth (HValue.dict kvs) = 1 + pdepthEntries kvs := rfl
          omega
        have hin : print_hcl (.dict kvs) (j + 1) ++ rest =
            pad (j + 1) ++ (lbrace :: '\n' ::
              (print_hcl_entries kvs (j + 1) ++ (pad (j + 1) ++
                (rbrace :: '\n' :: '\n' :: rest)))) := by
          show (pad (j + 1) ++ [lbrace, '\n'] ++ print_hcl_entries kvs (j + 1) ++
              pad (j + 1) ++ [rbrace, '\n'] ++ ['\n']) ++ rest = _
          simp [List.append_assoc]
        rw [hin, parseValue_congr (f + 1) (skipWs_pad (j + 1) _), parseValue_succ]
        unfold parseValueF
        rw [skipWs_cons_not_ws (by decide)]
        simp only [if_neg (show ¬ lbrace = '"' by decide),
          if_neg (show ¬ lbrace = '[' by decide), if_pos (show lbrace = lbrace from rfl)]
        rw [parseAttrs_congr f (skipWs_cons_ws (by decide) _)]
        have hend : attrsEnd (pad (j + 1) ++ (rbrace :: '\n' :: '\n' :: rest)) = true := by
          apply attrsEnd_of_rbrace
          rw [skipWs_pad, skipWs_cons_not_ws (by decide)]
        rw [parseAttrs_entries kvs hkvs f (j + 1)
          (pad (j + 1) ++ (rbrace :: '\n' :: '\n' :: rest)) hf hend]
        rw [skipWs_pad, skipWs_cons_not_ws (by decide)]
        simp only [if_pos (show rbrace = rbrace from rfl)]
        rfl

theorem parseAttrs_entries : ∀ (kvs : List (String × HValue)), wfEntries kvs = true →
    ∀ (fuel i : Nat) (rest : List Char), pdepthEntries kvs ≤ fuel →
    attrsEnd rest = true →
    parseAttrs fuel (print_hcl_entries kvs i ++ rest) = some (kvs, skipWs rest) := by
  intro kvs hkvs fuel i rest hfuel hend
  cases fuel with
  | zero => exact absurd (Nat.le_trans (pdepthEntries_pos _) hfuel) (by omega)
  | succ f =>
    cases kvs with
    | nil =>
      rw [show print_hcl_entries [] i = [] from rfl, List.nil_append, parseAttrs_succ]
      unfold parseAttrsF
      unfold attrsEnd at hend
      cases h : skipWs rest with
      | nil => rfl
      | cons c cs =>
        rw [h] at hend
        have hc : c = rbrace := of_decide_eq_true hend
        subst hc
        rfl
    | cons kv tl =>
      obtain ⟨k, v⟩ := kv
      have hsplit : (isIdentKey k && !(hasKey tl k) && wfValue v && wfEntries tl) = true :=
        hkvs
      simp only [Bool.and_eq_true] at hsplit
      obtain ⟨⟨⟨hk, _⟩, hwv⟩, hwtl⟩ := hsplit
      obtain ⟨c, ks, hkd, hstart, hall⟩ := isIdentKey_spec hk
      have hfv : pdepth v ≤ f := by
        have he : pdepthEntries ((k, v) :: tl) =
            1 + max (pdepth v) (pdepthEntries tl) := rfl
        omega
      have hftl : pdepthEntries tl ≤ f := by
        have he : pdepthEntries ((k, v) :: tl) =
            1 + max (pdepth v) (pdepthEntries tl) := rfl
        omega
      have hin : print_hcl_entries ((k, v) :: tl) i ++ rest =
          pad i ++ (k.data ++ (' ' :: '=' :: ' ' ::
            (print_hcl v (i + 1) ++ (print_hcl_entries tl i ++ rest)))) := by
        show (pad i ++ k.data ++ " = ".data ++ print_hcl v (i + 1) ++
            print_hcl_entries tl i) ++ rest = _
        simp [List.append_assoc]
      rw [hin, parseAttrs_congr (f + 1) (skipWs_pad i _), parseAttrs_succ]
      unfold parseAttrsF
      rw [hkd, List.cons_append, skipWs_cons_not_ws (identStart_not_ws hstart)]
      simp only [if_neg (identStart_ne_rbrace hstart), if_pos hstart]
      rw [← List.cons_append, ← hkd]
      have hTD := takeWhile_append_all hall
        (' ' :: '=' :: ' ' :: (print_hcl v (i + 1) ++ (print_hcl_entries tl i ++ rest)))
        (by intro d hd; simp only [List.head?_cons, Option.some.injEq] at hd; subst hd; decide)
      rw [hTD.2, hTD.1, skipWs_cons_ws (by decide), skipWs_cons_not_ws (by decide)]
      simp only [if_pos (show ('=' : Char) = '=' from rfl)]
      rw [parseValue_congr f
        (skipWs_cons_ws (show isWsChar ' ' = true from by decide)
          (print_hcl v (i + 1) ++ (print_hcl_entries tl i ++ rest)))]
      rw [parseValue_stmt v hwv f (i + 1) (print_hcl_entries tl i ++ rest) hfv (by omega)]
      show (parseAttrs f (stmtTrail v ++ (print_hcl_entries tl i ++ rest))).map
          (fun q => ((String.mk k.data, v) :: q.1, q.2)) = some ((k, v) :: tl, skipWs rest)
      rw [parseAttrs_congr f
        (skipWs_append_ws (stmtTrail_ws v) (print_hcl_entries tl i ++ rest))]
      rw [parseAttrs_entries tl hwtl f i rest hftl hend]
      rfl

end

/-! ### Fuel adequacy: recursion depth is bounded by output length -/

mutual

theorem pdepth_le_scalar : ∀ (v : HValue), wfScalar v = true →
    pdepth v ≤ (print_hcl_scalar v).length := by
  intro v hv
  cases v with
  | null => show 1 ≤ 4; omega
  | bool b => cases b
              · show 1 ≤ 5; omega
              · show 1 ≤ 4; omega
  | int n =>
    cases n with
    | ofNat m =>
      show 1 ≤ (natDec m).length
      cases hm : natDec m with
      | nil => exact absurd hm (natDec_ne_nil m)
      | cons c t => simp
    | negSucc m =>
      show 1 ≤ ('-' :: natDec (m + 1)).length
      simp
  | str s =>
    show 1 ≤ ('"' :: escQuotes s.data ++ ['"']).length
    simp
  | list xs =>
    have hb := pdepthList_le_elems xs hv
    show 1 + pdepthList xs ≤ ('[' :: print_hcl_scalar_list xs true ++ [']']).length
    simp only [List.cons_append, List.length_cons, List.length_append,
      List.length_singleton]
    omega
  | dict kvs => rw [wfScalar] at hv; exact absurd hv (by decide)
  | unsupported => rw [wfScalar] at hv; exact absurd hv (by decide)

theorem pdepthList_le_elems : ∀ (xs : List HValue), wfScalarList xs = true →
    pdepthList xs ≤ (print_hcl_scalar_list xs true).length + 1 := by
  intro xs hxs
  cases xs with
  | nil => show 1 ≤ 0 + 1; omega
  | cons v tl =>
    have hw : wfScalar v = true ∧ wfScalarList tl = true := by
      have h' : (wfScalar v && wfScalarList tl) = true := hxs
      simpa [Bool.and_eq_true] using h'
    have hv := pdepth_le_scalar v hw.1
    have hv1 : 1 ≤ (print_hcl_scalar v).length := Nat.le_trans (pdepth_pos v) hv
    show 1 + max (pdepth v) (pdepthList tl) ≤
      ([] ++ print_hcl_scalar v ++ print_hcl_scalar_list tl false).length + 1
    cases tl with
    | nil =>
      show 1 + max (pdepth v) 1 ≤ ([] ++ print_hcl_scalar v ++ []).length + 1
      simp only [List.nil_append, List.append_nil]
      omega
    | cons w tw =>
      have htl := pdepthList_le_elems (w :: tw) hw.2
      have hexp : print_hcl_scalar_list (w :: tw) false =
          ',' :: ' ' :: print_hcl_scalar_list (w :: tw) true := by
        rw [print_hcl_scalar_list, print_hcl_scalar_list]
        rfl
      rw [hexp]
      simp only [List.nil_append, List.length_append, List.length_cons]
      omega

end

mutual

theorem pdepth_le_stmt : ∀ (v : HValue), wfValue v = true →
    ∀ i : Nat, 1 ≤ i → pdepth v ≤ (print_hcl v i).length := by
  intro v hv i hi
  cases v with
  | null =>
    have hnd : print_hcl HValue.null i = print_hcl_scalar HValue.null ++ ['\n'] := rfl
    rw [hnd]
    exact Nat.le_trans (pdepth_le_scalar _ hv) (by simp)
  | bool b =>
    have hnd : print_hcl (HValue.bool b) i = print_hcl_scalar (HValue.bool b) ++ ['\n'] := rfl
    rw [hnd]
    exact Nat.le_trans (pdepth_le_scalar _ hv) (by simp)
  | int n =>
    have hnd : print_hcl (HValue.int n) i = print_hcl_scalar (HValue.int n) ++ ['\n'] := rfl
    rw [hnd]
    exact Nat.le_trans (pdepth_le_scalar _ hv) (by simp)
  | str s =>
    have hnd : print_hcl (HValue.str s) i = print_hcl_scalar (HValue.str s) ++ ['\n'] := rfl
    rw [hnd]
    exact Nat.le_trans (pdepth_le_scalar _ hv) (by simp)
  | list xs =>
    have hnd : print_hcl (HValue.list xs) i = print_hcl_scalar (HValue.list xs) ++ ['\n'] := rfl
    rw [hnd]
    exact Nat.le_trans (pdepth_le_scalar _ hv) (by simp)
  | unsupported => exact absurd (hv : wfScalar .unsupported = true) (by decide)
  | dict kvs =>
    have hE := pdepthEntries_le kvs hv (i)
    cases i with
    | zero => omega
    | succ j =>
      have hlen : (print_hcl (.dict kvs) (j + 1)).length =
          (pad (j + 1)).length + 2 + (print_hcl_entries kvs (j + 1)).length +
            (pad (j + 1)).length + 2 + 1 := by
        show ((pad (j + 1) ++ [lbrace, '\n'] ++ print_hcl_entries kvs (j + 1) ++
            pad (j + 1) ++ [rbrace, '\n'] ++ ['\n'])).length = _
        simp [List.length_append]
        omega
      have hpd : pdepth (HValue.dict kvs) = 1 + pdepthEntries kvs := rfl
      have hE' := pdepthEntries_le kvs hv (j + 1)
      omega

theorem pdepthEntries_le : ∀ (kvs : List (String × HValue)), wfEntries kvs = true →
    ∀ i : Nat, pdepthEntries kvs ≤ (print_hcl_entries kvs i).length + 1 := by
  intro kvs hkvs i
  cases kvs with
  | nil => show 1 ≤ 0 + 1; omega
  | cons kv tl =>
    obtain ⟨k, v⟩ := kv
    have hsplit : (isIdentKey k && !(hasKey tl k) && wfValue v && wfEntries tl) = true :=
      hkvs
    simp only [Bool.and_eq_true] at hsplit
    obtain ⟨⟨⟨_, _⟩, hwv⟩, hwtl⟩ := hsplit
    have hv := pdepth_le_stmt v hwv (i + 1) (by omega)
    have htl := pdepthEntries_le tl hwtl i
    have hpd : pdepthEntries ((k, v) :: tl) =
        1 + max (pdepth v) (pdepthEntries tl) := rfl
    have hlen : (print_hcl_entries ((k, v) :: tl) i).length =
        (pad i).length + k.data.length + 3 + (print_hcl v (i + 1)).length +
          (print_hcl_entries tl i).length := by
      show ((pad i ++ k.data ++ " = ".data ++ print_hcl v (i + 1) ++
          print_hcl_entries tl i)).length = _
      simp [List.length_append]
      omega
    omega

end

/-! ### The round trip -/

theorem serialize_eq_entries (cfg : Config) :
    serialize cfg = print_hcl_entries cfg 0 ++ ['\n'] := by
  show (pad 0 ++ [] ++ print_hcl_entries cfg 0 ++ pad 0 ++ [] ++ ['\n']) = _
  simp [pad, indent_spaces]

theorem hcl_parse_serialize (cfg : Config) (h : wfEntries cfg = true) :
    hcl_parse (serialize cfg) = some cfg := by
  unfold hcl_parse
  rw [serialize_eq_entries]
  have hb := pdepthEntries_le cfg h 0
  have hfuel : pdepthEntries cfg ≤ (print_hcl_entries cfg 0 ++ ['\n']).length + 1 := by
    simp only [List.length_append, List.length_singleton]
    omega
  rw [parseAttrs_entries cfg h ((print_hcl_entries cfg 0 ++ ['\n']).length + 1) 0 ['\n']
    hfuel (attrsEnd_of_nil (by rfl))]
  rfl

/-! ### Decimal and list-rendering facts for the scalar contract -/

theorem intDec_chars (n : Int) : ∀ c ∈ intDec n, isDigitChar c = true ∨ c = '-' := by
  cases n with
  | ofNat m =>
    intro c hc
    exact Or.inl (natDec_all_digits m c hc)
  | negSucc m =>
    intro c hc
    rcases List.mem_cons.mp hc with he | hm
    · exact Or.inr he
    · exact Or.inl (natDec_all_digits (m + 1) c hm)

theorem intVal_intDec (n : Int) : intVal (intDec n) = n := by
  cases n with
  | ofNat m =>
    show intVal (natDec m) = Int.ofNat m
    cases hm : natDec m with
    | nil => exact absurd hm (natDec_ne_nil m)
    | cons c t =>
      have hdig : isDigitChar c = true := by
        apply natDec_all_digits m
        rw [hm]; simp
      rw [intVal, if_neg (digit_route hdig).2.2.2.1, ← hm, natDec_val]
      rfl
  | negSucc m =>
    show intVal ('-' :: natDec (m + 1)) = Int.negSucc m
    rw [intVal, if_pos rfl, natDec_val, Int.negSucc_eq]
    simp

theorem print_list_intercalate (xs : List HValue) :
    print_hcl_scalar_list xs true =
      List.intercalate ", ".data (xs.map print_hcl_scalar) := by
  induction xs with
  | nil => simp [print_hcl_scalar_list, List.intercalate]
  | cons v tl ih =>
    cases tl with
    | nil =>
      show [] ++ print_hcl_scalar v ++ [] =
        List.intercalate ", ".data [print_hcl_scalar v]
      simp [List.intercalate, List.intersperse]
    | cons w tw =>
      have hexp : print_hcl_scalar_list (w :: tw) false =
          ',' :: ' ' :: print_hcl_scalar_list (w :: tw) true := by
        rw [print_hcl_scalar_list, print_hcl_scalar_list]
        rfl
      show [] ++ print_hcl_scalar v ++ print_hcl_scalar_list (w :: tw) false = _
      rw [hexp, ih]
      simp only [List.map_cons, List.nil_append]
      rw [show List.intercalate ", ".data
          (print_hcl_scalar v :: print_hcl_scalar w :: List.map print_hcl_scalar tw) =
          print_hcl_scalar v ++ ", ".data ++
            List.intercalate ", ".data
              (print_hcl_scalar w :: List.map print_hcl_scalar tw) from by
        simp [List.intercalate, List.intersperse]]
      simp [List.append_assoc]

/-! ### Claim C2 -/

/-- C2 counterexample: the code signals no `SerializationError` at all.
`print_hcl_scalar` has no branch for an unsupported value (one matching
none of its `isinstance` tests), so the value is silently skipped: the
serializer is a total function — note `serialize`'s codomain has no error
outcome, mirroring the absence of any `raise` in
`print_hcl`/`print_hcl_scalar` — and serializing `{"a": 1, "b": <object>}`
writes the full surrounding output, with `b = ` followed by nothing,
contradicting "signals a SerializationError … and writes no partial
output". -/
theorem c2_counterexample :
    serialize [("a", .int 1), ("b", .unsupported)] = "a = 1\nb = \n\n".data := by
  decide

/-- C2 (amended): a value of an unsupported type is silently skipped: its
scalar rendering is empty, a statement renders as just the trailing
newline, a mapping nested inside a list is likewise skipped, no error is
signalled, and the surrounding output is still written in full. -/
theorem c2_unsupported_silently_skipped :
    print_hcl_scalar .unsupported = [] ∧
    (∀ i : Nat, print_hcl .unsupported i = ['\n']) ∧
    (∀ kvs : List (String × HValue), print_hcl_scalar (.dict kvs) = []) ∧
    serialize [("a", .int 1), ("b", .unsupported)] = "a = 1\nb = \n\n".data :=
  ⟨rfl, fun _ => rfl, fun _ => rfl, by decide⟩

/-! ### Claim C3 -/

/-- C3 counterexample: the configuration `{"x": "\\"}` (a single
backslash — a scalar string, squarely inside the claim's class) escapes
only double quotes, so the rendered line is `x = "\"` whose string
literal never terminates; the target format's reader rejects it instead
of reconstructing the mapping. -/
theorem c3_counterexample :
    serialize [("x", .str "\\")] = "x = \"\\\"\n\n".data ∧
    hcl_parse (serialize [("x", .str "\\")]) = none :=
  ⟨by decide, by rfl⟩

/-- C3 (amended): for every configuration whose keys are identifiers,
whose mappings have no duplicate keys, and whose values are scalars
(null, boolean, integer, string without backslash / raw newline /
template characters), lists of such scalars, and nested well-formed
mappings, serializing and parsing back with the target format's reader
reconstructs the exact mapping — keys in the same order as the input,
since the equality is between ordered association lists. -/
theorem c3_roundtrip (cfg : Config) (h : wfEntries cfg = true) :
    hcl_parse (serialize cfg) = some cfg :=
  hcl_parse_serialize cfg h

/-- Witness for `c3_roundtrip` at a configuration exercising every value
shape: integers (negative included), strings (with an escaped quote and
an empty string), lists, and a nested mapping. -/
theorem c3_roundtrip_witness :
    wfEntries [("a", .int 1), ("b", .dict [("c", .bool true)]),
      ("s", .str "x\"y"), ("l", .list [.null, .int (-2), .str ""])] = true ∧
    hcl_parse (serialize [("a", .int 1), ("b", .dict [("c", .bool true)]),
      ("s", .str "x\"y"), ("l", .list [.null, .int (-2), .str ""])]) =
      some [("a", .int 1), ("b", .dict [("c", .bool true)]),
        ("s", .str "x\"y"), ("l", .list [.null, .int (-2), .str ""])] :=
  ⟨by decide,
   c3_roundtrip [("a", .int 1), ("b", .dict [("c", .bool true)]),
     ("s", .str "x\"y"), ("l", .list [.null, .int (-2), .str ""])] (by decide)⟩

/-! ### Claim C4 -/

/-- C4: the scalar rendering contract.  `null` renders as the literal
null token; booleans as `true`/`false`; an integer as a decimal literal
(every character a digit or the leading minus — in particular no
fractional part — and decoding the digits yields the integer back);
a string as a double-quoted literal whose body has every internal double
quote escaped (no unescaped quote remains, and unescaping recovers the
original string); a list as a comma-separated bracketed sequence of the
recursively rendered elements; and on `{"a": 1, "b": {"c": true}}` the
serializer renders `a` before `b`, with `b`'s nested block containing
`c = true` one indentation level (two spaces) deeper. -/
theorem c4_scalar_rendering :
    print_hcl_scalar .null = "null".data ∧
    (∀ b : Bool, print_hcl_scalar (.bool b) =
      if b then "true".data else "false".data) ∧
    (∀ n : Int, intVal (print_hcl_scalar (.int n)) = n ∧
      ∀ c ∈ print_hcl_scalar (.int n), isDigitChar c = true ∨ c = '-') ∧
    (∀ s : String, ∃ body, print_hcl_scalar (.str s) = '"' :: body ++ ['"'] ∧
      unescQuotes body = s.data ∧ noNakedQuote body = true) ∧
    (∀ xs : List HValue, print_hcl_scalar (.list xs) =
      '[' :: List.intercalate ", ".data (xs.map print_hcl_scalar) ++ [']']) ∧
    print_hcl (.dict [("a", .int 1), ("b", .dict [("c", .bool true)])]) 0 =
      "a = 1\nb =   \x7b\n  c = true\n  \x7d\n\n\n".data :=
  ⟨rfl,
   fun b => by cases b <;> rfl,
   fun n => ⟨intVal_intDec n, intDec_chars n⟩,
   fun s => ⟨escQuotes s.data, rfl, unesc_escQuotes s.data, noNaked_escQuotes s.data⟩,
   fun xs => by rw [print_hcl_scalar, print_list_intercalate],
   by decide⟩

/-- Witness for `c4_scalar_rendering`: the decimal rendering of `57`
contains the digit `5`, which the integer conjunct classifies as a digit
or a minus sign. -/
theorem c4_scalar_rendering_witness :
    ('5' ∈ print_hcl_scalar (.int 57)) ∧ (isDigitChar '5' = true ∨ '5' = '-') :=
  ⟨by decide, (c4_scalar_rendering.2.2.1 57).2 '5' (by decide)⟩

/-! ### Claim C5: cross-wizard seeding -/

theorem pyLookup_pyUpdate_self {α : Type} (d : List (String × α)) (k : String)
    (v : α) : pyLookup (pyUpdate d k v) k = some v := by
  induction d with
  | nil => simp [pyUpdate, pyLookup]
  | cons kv tl ih =>
    obtain ⟨k', v'⟩ := kv
    by_cases h : k' = k
    · simp [pyUpdate, pyLookup, h]
    · simp [pyUpdate, pyLookup, h, ih]

theorem pyLookup_pyUpdate_ne {α : Type} (d : List (String × α)) {k k' : String}
    (v : α) (h : k' ≠ k) : pyLookup (pyUpdate d k v) k' = pyLookup d k' := by
  have h' : ¬ k = k' := fun he => h he.symm
  induction d with
  | nil => simp [pyUpdate, pyLookup, h']
  | cons kv tl ih =>
    obtain ⟨k0, v0⟩ := kv
    by_cases h0 : k0 = k
    · subst h0
      simp [pyUpdate, pyLookup, h']
    · simp only [pyUpdate, if_neg h0, pyLookup]
      by_cases h1 : k0 = k'
      · simp [h1]
      · simp [h1, ih]

theorem pyLookup_eq_none {α : Type} (l : List (String × α)) (k : String)
    (h : k ∉ l.map Prod.fst) : pyLookup l k = none := by
  induction l with
  | nil => rfl
  | cons kv tl ih =>
    obtain ⟨k0, v0⟩ := kv
    simp only [List.map_cons, List.mem_cons] at h
    push_neg at h
    have h' : ¬ k0 = k := fun he => h.1 he.symm
    simp only [pyLookup, if_neg h']
    exact ih h.2

theorem pyLookup_merge {α : Type} (a b : List (String × α)) (k : String)
    (hnd : (b.map Prod.fst).Nodup) :
    pyLookup (pyMergeInto a b) k =
      match pyLookup b k with
      | some v => some v
      | none => pyLookup a k := by
  induction b generalizing a with
  | nil => rfl
  | cons kv tl ih =>
    obtain ⟨k0, v0⟩ := kv
    simp only [List.map_cons, List.nodup_cons] at hnd
    have hstep : pyMergeInto a ((k0, v0) :: tl) =
        pyMergeInto (pyUpdate a k0 v0) tl := rfl
    rw [hstep, ih (pyUpdate a k0 v0) hnd.2]
    by_cases h : k0 = k
    · subst h
      rw [pyLookup_eq_none tl k0 hnd.1]
      simp [pyLookup, pyLookup_pyUpdate_self]
    · simp only [pyLookup, if_neg h]
      cases pyLookup tl k with
      | none => simp [pyLookup_pyUpdate_ne a v0 (fun he => h he.symm)]
      | some v => simp

/-- C5 counterexample: the later wizard's own default set
(`FastDialogs.config`) defines `use_upstream = True`; seeding with an
incoming configuration that also defines `use_upstream` (as `False`)
makes the later wizard start with the incoming value, not its own
default — `{**self.config, **config}` lets the incoming dict win. -/
theorem c5_counterexample :
    pyLookup FastDialogs_config "use_upstream" = some (.bool true) ∧
    pyLookup (wizard_seed FastDialogs_config [("use_upstream", .bool false)])
      "use_upstream" = some (.bool false) ∧
    HValue.bool false ≠ HValue.bool true :=
  ⟨rfl, rfl, by intro h; injection h with h'; exact Bool.noConfusion h'⟩

/-- C5 (amended): the seeding merge is shallow, and keys from the
incoming configuration DO overwrite keys the later wizard's own default
set defines: for every key present in both, the later wizard starts with
the incoming value (replaced wholesale, nested mappings included — no
recursive merge); defaults survive only for keys the incoming
configuration lacks. -/
theorem c5_seed_merge (defaults incoming : Config) (k : String)
    (hnd : (incoming.map Prod.fst).Nodup) :
    (∀ v, pyLookup incoming k = some v →
      pyLookup (wizard_seed defaults incoming) k = some v) ∧
    (pyLookup incoming k = none →
      pyLookup (wizard_seed defaults incoming) k = pyLookup defaults k) := by
  constructor
  · intro v hv
    rw [wizard_seed, pyLookup_merge defaults incoming k hnd, hv]
  · intro hv
    rw [wizard_seed, pyLookup_merge defaults incoming k hnd, hv]

/-- Witness for `c5_seed_merge`: seeding `FastDialogs`'s defaults with an
incoming configuration overriding `use_upstream` and adding `cicd`. -/
theorem c5_seed_merge_witness :
    pyLookup (wizard_seed FastDialogs_config
      [("use_upstream", .bool false), ("cicd", .str "github")]) "use_upstream" =
      some (.bool false) ∧
    pyLookup (wizard_seed FastDialogs_config
      [("use_upstream", .bool false), ("cicd", .str "github")]) "upstream_tag" =
      some .null :=
  ⟨(c5_seed_merge FastDialogs_config
      [("use_upstream", .bool false), ("cicd", .str "github")] "use_upstream"
      (by decide)).1 (.bool false) rfl,
   ((c5_seed_merge FastDialogs_config
      [("use_upstream", .bool false), ("cicd", .str "github")] "upstream_tag"
      (by decide)).2 rfl).trans rfl⟩

/-! ### Claim C7: the module source rewrite -/

theorem hasSub_intro (pat : List Char) : ∀ (pre post : List Char),
    hasSub pat (pre ++ (pat ++ post)) = true := by
  intro pre
  induction pre with
  | nil =>
    intro post
    simp only [List.nil_append]
    cases pat with
    | nil =>
      cases post with
      | nil => rfl
      | cons c cs => rfl
    | cons p ps =>
      rw [List.cons_append, hasSub, ← List.cons_append, dropLit_self_append]
  | cons c pre' ih =>
    intro post
    rw [List.cons_append, hasSub]
    cases hd : dropLit pat (c :: (pre' ++ (pat ++ post))) with
    | some r => rfl
    | none => exact ih post

theorem hasSub_elim {pat l : List Char} (h : hasSub pat l = true) :
    ∃ pre post, l = pre ++ (pat ++ post) := by
  induction l with
  | nil =>
    cases pat with
    | nil => exact ⟨[], [], rfl⟩
    | cons p ps => rw [hasSub] at h; exact absurd h (by simp [dropLit])
  | cons c cs ih =>
    rw [hasSub] at h
    cases hd : dropLit pat (c :: cs) with
    | some r =>
      refine ⟨[], r, ?_⟩
      rw [List.nil_append]
      exact dropLit_eq_some hd
    | none =>
      rw [hd] at h
      obtain ⟨pre, post, hpp⟩ := ih h
      exact ⟨c :: pre, post, by rw [hpp]; rfl⟩

theorem hasSub_of_part {pat content : List Char} (a b : List Char)
    (hc : hasSub pat content = true) : hasSub pat (a ++ (content ++ b)) = true := by
  obtain ⟨pre, post, hpp⟩ := hasSub_elim hc
  rw [hpp]
  have := hasSub_intro pat (a ++ pre) (post ++ b)
  simpa [List.append_assoc] using this

theorem srcMatched_len (m : SrcMatch) : 6 ≤ (srcMatched m).length := by
  simp [srcMatched, srcGroup1, List.length_append]

theorem tryMatch_some {l : List Char} {m : SrcMatch} {r : List Char}
    (h : tryMatch l = some (m, r)) : l = srcMatched m ++ r := by
  unfold tryMatch at h
  split at h
  · exact Option.noConfusion h
  next r1 h1 =>
    split at h
    · exact Option.noConfusion h
    next e r3 h2 =>
      split at h
      next he =>
        split at h
        · exact Option.noConfusion h
        next q r4 h3 =>
          split at h
          next hq =>
            split at h
            next => exact Option.noConfusion h
            next c0 r5 =>
              split at h
              next hc0 => exact Option.noConfusion h
              next hc0 =>
                split at h
                · exact Option.noConfusion h
                next q2 r6 h4 =>
                  split at h
                  next hq2 =>
                    injection h with h'
                    injection h' with hm hr
                    subst hm
                    subst hr
                    subst he
                    subst hq
                    subst hq2
                    set w1 := List.takeWhile isPySpace r1 with hw1
                    set w2 := List.takeWhile isPySpace r3 with hw2
                    set mid := List.takeWhile (fun c => c ≠ '"' && c ≠ '\n') r5
                      with hmid
                    have e1 : "source".data ++ r1 = l := (dropLit_eq_some h1).symm
                    have e2 : w1 ++ ('=' :: r3) = r1 := by
                      rw [hw1, ← h2]
                      exact List.takeWhile_append_dropWhile isPySpace r1
                    have e3 : w2 ++ ('"' :: c0 :: r5) = r3 := by
                      rw [hw2, ← h3]
                      exact List.takeWhile_append_dropWhile isPySpace r3
                    have e4 : mid ++ ('"' :: r6) = r5 := by
                      rw [hmid, ← h4]
                      exact List.takeWhile_append_dropWhile _ r5
                    conv_lhs => rw [← e1, ← e2, ← e3, ← e4]
                    simp [srcMatched, srcGroup1, List.append_assoc]
                  next hq2 => exact Option.noConfusion h
          next hq => exact Option.noConfusion h
      next he => exact Option.noConfusion h

theorem subSourceGo_id (target : List Char) (tag : Option (List Char)) :
    ∀ (fuel : Nat) (l : List Char), l.length ≤ fuel →
    hasSub "../modules".data l = false →
    subSourceGo (change_module_source_sub target tag) fuel l = l := by
  intro fuel
  induction fuel with
  | zero => intro l _ _; rfl
  | succ f ih =>
    intro l hlen hsub
    cases l with
    | nil => rfl
    | cons c cs =>
      rw [subSourceGo]
      cases hm : tryMatch (c :: cs) with
      | none =>
        have hsub' : hasSub "../modules".data cs = false := by
          rw [hasSub] at hsub
          cases hd : dropLit "../modules".data (c :: cs) with
          | some r => rw [hd] at hsub; exact Bool.noConfusion hsub
          | none => rw [hd] at hsub; exact hsub
        have hlen' : cs.length ≤ f := by
          simp only [List.length_cons] at hlen
          omega
        show c :: subSourceGo (change_module_source_sub target tag) f cs = c :: cs
        rw [ih cs hlen' hsub']
      | some p =>
        obtain ⟨m, r2⟩ := p
        have hrec := tryMatch_some hm
        have hnosub : hasSub "../modules".data m.content = false := by
          by_contra hcon
          rw [Bool.not_eq_false] at hcon
          have hl : hasSub "../modules".data (c :: cs) = true := by
            rw [hrec]
            have := hasSub_of_part (srcGroup1 m) (['"'] ++ r2) hcon
            simpa [srcMatched, srcGroup1, List.append_assoc] using this
          rw [hl] at hsub
          exact Bool.noConfusion hsub
        have hrepl : change_module_source_sub target tag m = srcMatched m := by
          unfold change_module_source_sub
          rw [if_neg (by simp [hnosub])]
        have hr2sub : hasSub "../modules".data r2 = false := by
          by_contra hcon
          rw [Bool.not_eq_false] at hcon
          obtain ⟨pre, post, hpp⟩ := hasSub_elim hcon
          have hl : hasSub "../modules".data (c :: cs) = true := by
            rw [hrec, hpp]
            have := hasSub_intro "../modules".data (srcMatched m ++ pre) post
            simpa [List.append_assoc] using this
          rw [hl] at hsub
          exact Bool.noConfusion hsub
        have hr2len : r2.length ≤ f := by
          have hl := congrArg List.length hrec
          simp only [List.length_cons, List.length_append] at hl
          have h6 := srcMatched_len m
          simp only [List.length_cons] at hlen
          omega
        show change_module_source_sub target tag m ++
            subSourceGo (change_module_source_sub target tag) f r2 = c :: cs
        rw [hrepl, ih r2 hr2len hr2sub, ← hrec]

theorem change_module_source_line_id (target : List Char) (tag : Option (List Char))
    (line : List Char) (h : hasSub "../modules".data line = false) :
    change_module_source_line target tag line = line :=
  subSourceGo_id target tag line.length line (Nat.le_refl _) h

/-- C7 counterexample: with the claim's target repository
`git::https://example/repo.git` the transform emits a doubled scheme
prefix `git::git::…`, because `change_module_source_sub` itself prepends
`git::` to the target repository; the output is not the claimed
`source = "git::https://example/repo.git//modules/network?ref=v1.2.3"`. -/
theorem c7_counterexample :
    change_module_source_line "git::https://example/repo.git".data
      (some "v1.2.3".data) "source = \"../modules/network\"".data =
      "source = \"git::git::https://example/repo.git//modules/network?ref=v1.2.3\"".data ∧
    "source = \"git::git::https://example/repo.git//modules/network?ref=v1.2.3\"".data ≠
      "source = \"git::https://example/repo.git//modules/network?ref=v1.2.3\"".data :=
  ⟨by decide, by decide⟩

/-- C7 (amended): with target repository `https://example/repo.git` — the
transform itself prepends `git::` — the line
`source = "../modules/network"` rewrites to exactly
`source = "git::https://example/repo.git//modules/network?ref=v1.2.3"`
with tag `v1.2.3`; with no tag the `?ref=` suffix is omitted entirely;
and every line that does not contain `../modules` is left unchanged. -/
theorem c7_module_source_rewrite :
    change_module_source_line "https://example/repo.git".data (some "v1.2.3".data)
      "source = \"../modules/network\"".data =
      "source = \"git::https://example/repo.git//modules/network?ref=v1.2.3\"".data ∧
    change_module_source_line "https://example/repo.git".data none
      "source = \"../modules/network\"".data =
      "source = \"git::https://example/repo.git//modules/network\"".data ∧
    (∀ (target : List Char) (tag : Option (List Char)) (line : List Char),
      hasSub "../modules".data line = false →
      change_module_source_line target tag line = line) :=
  ⟨by decide, by decide, change_module_source_line_id⟩

/-- Witness for `c7_module_source_rewrite`: a line with a local,
non-module source string passes through unchanged. -/
theorem c7_module_source_rewrite_witness :
    hasSub "../modules".data "source = \"./local\"".data = false ∧
    change_module_source_line "https://example/repo.git".data none
      "source = \"./local\"".data = "source = \"./local\"".data :=
  ⟨by decide,
   c7_module_source_rewrite.2.2 "https://example/repo.git".data none
     "source = \"./local\"".data (by decide)⟩

/-! ### Claim C8: the terraform retry loop -/

theorem run_tf_go_succ (oracle : Nat → Int × Option Bool) (quitConfirm : Nat → Bool)
    (f i : Nat) :
    run_tf_go oracle quitConfirm (f + 1) i =
      (match (oracle i).2 with
       | none => if quitConfirm i then some .quitProcess else some .retreat
       | some r =>
         if (oracle i).1 = 0 && r then some .success
         else if !r then some .retreat
         else run_tf_go oracle quitConfirm f (i + 1)) := rfl

theorem run_tf_go_success (oracle : Nat → Int × Option Bool)
    (quitConfirm : Nat → Bool) :
    ∀ (fuel i : Nat), run_tf_go oracle quitConfirm fuel i = some .success →
    ∃ j, i ≤ j ∧ j < i + fuel ∧ (oracle j).1 = 0 ∧ (oracle j).2 = some true ∧
      ∀ m, i ≤ m → m < j → (oracle m).1 ≠ 0 ∧ (oracle m).2 = some true := by
  intro fuel
  induction fuel with
  | zero =>
    intro i h
    exact absurd h (by simp [run_tf_go])
  | succ f ih =>
    intro i h
    rw [run_tf_go_succ] at h
    cases ho : (oracle i).2 with
    | none =>
      rw [ho] at h
      replace h : (if quitConfirm i then some TfOutcome.quitProcess
          else some TfOutcome.retreat) = some TfOutcome.success := h
      by_cases hq : quitConfirm i
      · rw [if_pos hq] at h; exact absurd h (by simp)
      · rw [if_neg hq] at h; exact absurd h (by simp)
    | some r =>
      rw [ho] at h
      replace h : (if ((oracle i).1 = 0 && r) then some TfOutcome.success
          else if !r then some TfOutcome.retreat
          else run_tf_go oracle quitConfirm f (i + 1)) = some TfOutcome.success := h
      by_cases h1 : ((oracle i).1 = 0 && r) = true
      · rw [if_pos h1] at h
        simp only [Bool.and_eq_true, decide_eq_true_eq] at h1
        refine ⟨i, Nat.le_refl i, by omega, h1.1, by rw [ho, h1.2], ?_⟩
        intro m hm1 hm2
        omega
      · rw [if_neg h1] at h
        by_cases h2 : (!r) = true
        · rw [if_pos h2] at h; exact absurd h (by simp)
        · rw [if_neg h2] at h
          have hr : r = true := by
            cases r
            · exact absurd rfl h2
            · rfl
          obtain ⟨j, hj1, hj2, hj3, hj4, hj5⟩ := ih (i + 1) h
          refine ⟨j, by omega, by omega, hj3, hj4, ?_⟩
          intro m hm1 hm2
          by_cases hmi : m = i
          · subst hmi
            constructor
            · intro hz
              exact h1 (by simp [hz, hr])
            · rw [ho, hr]
          · exact hj5 m (by omega) hm2

/-- C8: the retry loop of `run_terraform_until_ok` returns success only
after an iteration in which the command exited 0 and the operator pressed
Ok, and every earlier iteration had a non-zero exit with the operator
choosing Retry — so the wizard never advances past a failing command;
every iteration consults the collaborator at the same `cmd` and `dir`. -/
theorem c8_retry_until_clean_exit (cmd : List String) (dir : String)
    (oracle : List String → String → Nat → Int × Option Bool)
    (quitConfirm : Nat → Bool) (fuel : Nat)
    (h : run_terraform_until_ok cmd dir oracle quitConfirm fuel = some .success) :
    ∃ j, j < fuel ∧ (oracle cmd dir j).1 = 0 ∧ (oracle cmd dir j).2 = some true ∧
      ∀ m, m < j → (oracle cmd dir m).1 ≠ 0 ∧ (oracle cmd dir m).2 = some true := by
  obtain ⟨j, hj1, hj2, hj3, hj4, hj5⟩ := run_tf_go_success (oracle cmd dir)
    quitConfirm fuel 0 h
  exact ⟨j, by omega, hj3, hj4, fun m hm => hj5 m (by omega) hm⟩

/-- Witness for `c8_retry_until_clean_exit`: a run whose first terraform
invocation fails (exit 1, operator retries) and whose second exits 0. -/
theorem c8_retry_until_clean_exit_witness :
    ∃ j, j < 3 ∧
      ((fun (_ : List String) (_ : String) (i : Nat) =>
          if i = 0 then ((1 : Int), some true) else ((0 : Int), some true))
        ["terraform", "apply"] "stages/00-bootstrap" j).1 = 0 ∧
      ((fun (_ : List String) (_ : String) (i : Nat) =>
          if i = 0 then ((1 : Int), some true) else ((0 : Int), some true))
        ["terraform", "apply"] "stages/00-bootstrap" j).2 = some true ∧
      ∀ m, m < j →
        ((fun (_ : List String) (_ : String) (i : Nat) =>
            if i = 0 then ((1 : Int), some true) else ((0 : Int), some true))
          ["terraform", "apply"] "stages/00-bootstrap" m).1 ≠ 0 ∧
        ((fun (_ : List String) (_ : String) (i : Nat) =>
            if i = 0 then ((1 : Int), some true) else ((0 : Int), some true))
          ["terraform", "apply"] "stages/00-bootstrap" m).2 = some true :=
  c8_retry_until_clean_exit ["terraform", "apply"] "stages/00-bootstrap"
    (fun _ _ i => if i = 0 then ((1 : Int), some true) else ((0 : Int), some true))
    (fun _ => false) 3 (by rfl)

/-! ### Claim C9: credential environment variables -/

/-- C9 counterexample: `GITLAB_TOKEN` present in the environment with an
empty value — the variable IS present, yet `select_gitlab_token` still
shows the masked prompt, because the code tests Python truthiness of
`os.getenv`, not presence. -/
theorem c9_counterexample :
    getenv [("GITLAB_TOKEN", "")] "GITLAB_TOKEN" = some "" ∧
    (select_gitlab_token [("GITLAB_TOKEN", "")] (.text "s3cret")).prompted = true :=
  ⟨rfl, rfl⟩

/-- C9 (amended): for each credential variable, a *non-empty* value in
the environment suppresses the prompt entirely (no prompt, no mutation,
step advances); when the variable is absent or empty, the masked prompt
is shown, and a *non-empty* entered token is exported into the process
environment for the remainder of execution. -/
theorem c9_token_env_vars (env : Env) (v : String) (outcome : InputOutcome)
    (s : String) :
    (getenv env "GITLAB_TOKEN" = some v → v ≠ "" →
      select_gitlab_token env outcome = ⟨true, env, false⟩) ∧
    (envTruthy (getenv env "GITLAB_TOKEN") = false →
      (select_gitlab_token env outcome).prompted = true) ∧
    (envTruthy (getenv env "GITLAB_TOKEN") = false → s ≠ "" →
      getenv (select_gitlab_token env (.text s)).env "GITLAB_TOKEN" = some s) ∧
    (getenv env "GITHUB_TOKEN" = some v → v ≠ "" →
      select_github_token env outcome = ⟨true, env, false⟩) ∧
    (envTruthy (getenv env "GITHUB_TOKEN") = false →
      (select_github_token env outcome).prompted = true) ∧
    (envTruthy (getenv env "GITHUB_TOKEN") = false → s ≠ "" →
      getenv (select_github_token env (.text s)).env "GITHUB_TOKEN" = some s) := by
  refine ⟨?_, ?_, ?_, ?_, ?_, ?_⟩
  · intro hg hv
    unfold select_gitlab_token
    rw [hg]
    simp [envTruthy, hv]
  · intro hf
    unfold select_gitlab_token
    rw [hf]
    cases outcome with
    | previous => rfl
    | text t =>
      by_cases ht : t = ""
      · simp [ht]
      · simp [ht]
  · intro hf hs
    unfold select_gitlab_token
    rw [hf]
    simp only [Bool.not_false, if_true, ne_eq, hs, not_false_eq_true, if_pos]
    simp [hs, getenv, setenv, pyLookup_pyUpdate_self]
  · intro hg hv
    unfold select_github_token
    rw [hg]
    simp [envTruthy, hv]
  · intro hf
    unfold select_github_token
    rw [hf]
    cases outcome with
    | previous => rfl
    | text t =>
      by_cases ht : t = ""
      · simp [ht]
      · simp [ht]
  · intro hf hs
    unfold select_github_token
    rw [hf]
    simp [hs, getenv, setenv, pyLookup_pyUpdate_self]

/-- Witness for `c9_token_env_vars`: a set, non-empty `GITLAB_TOKEN`
suppresses the prompt; in an empty environment an entered token is
exported. -/
theorem c9_token_env_vars_witness :
    select_gitlab_token [("GITLAB_TOKEN", "x")] (.text "y") =
      ⟨true, [("GITLAB_TOKEN", "x")], false⟩ ∧
    getenv (select_gitlab_token [] (.text "tok")).env "GITLAB_TOKEN" = some "tok" :=
  ⟨(c9_token_env_vars [("GITLAB_TOKEN", "x")] "x" (.text "y") "tok").1 rfl
     (by decide),
   (c9_token_env_vars [] "x" (.text "tok") "tok").2.2.1 rfl (by decide)⟩

/-! ### Claim C10: token steps always advance -/

/-- C10: both credential token steps return the advance value on every
possible prompt outcome — pressing Previous or submitting an empty token
still advances (so backward navigation out of a token step is
impossible), and in both of those cases the process environment is left
exactly as it was (in particular an empty submitted token leaves the
variable unset). -/
theorem c10_token_steps_always_advance (env : Env) (outcome : InputOutcome) :
    (select_gitlab_token env outcome).advance = true ∧
    (select_github_token env outcome).advance = true ∧
    (select_gitlab_token env .previous).env = env ∧
    (select_github_token env .previous).env = env ∧
    (select_gitlab_token env (.text "")).env = env ∧
    (select_github_token env (.text "")).env = env := by
  refine ⟨?_, ?_, ?_, ?_, ?_, ?_⟩
  · unfold select_gitlab_token
    split
    · cases outcome with
      | previous => rfl
      | text t =>
        by_cases ht : t = ""
        · simp [ht]
        · simp [ht]
    · rfl
  · unfold select_github_token
    split
    · cases outcome with
      | previous => rfl
      | text t =>
        by_cases ht : t = ""
        · simp [ht]
        · simp [ht]
    · rfl
  · unfold select_gitlab_token
    split <;> rfl
  · unfold select_github_token
    split <;> rfl
  · unfold select_gitlab_token
    split <;> rfl
  · unfold select_github_token
    split <;> rfl

/-! ### Claim C1: the wizard driver on retreat from step 0 -/

/-- C1: evaluating `run_wizard` on a two-step wizard whose step 0
signals retreat.  The handlers are invoked at cursor values `[0, -1]`:
the cursor leaves `[0, length]`, and the handler actually invoked at
cursor `-1` is the wizard's *last* step (Python negative indexing), which
records itself in the configuration — no abort-confirmation happens (the
driver loop contains no collaborator call at all), the process does not
terminate and the wizard does not stay at step 0. -/
theorem c1_retreat_from_zero_runs_last_step :
    run_wizard [step_zero, step_last] 2 [] =
      ([0, -1], .outOfFuel 0 [("ran", .str "last")]) ∧
    pyIdx [step_zero, step_last] (-1) = some step_last :=
  ⟨rfl, rfl⟩

/-! ### Claim C6: re-entering the gitlab repositories step -/

/-- C6: the first invocation of `select_gitlab_repositories` (with
`use_upstream = True`) pops `modules` from `gitlab_repositories` and
succeeds; re-invoking it on the resulting configuration — exactly what
`run_wizard` does after a retreat from the following step — raises
`KeyError: modules` from the unconditional `.pop("modules")`, so the
second invocation of the step handler fails. -/
theorem c6_gitlab_repositories_reentry_crash :
    select_gitlab_repositories
      [("use_upstream", .bool true),
        ("gitlab_repositories", .dict gitlab_repositories_init)]
      (some [("bootstrap", "bootstrap")]) =
      .ok (true, [("use_upstream", .bool true),
        ("gitlab_repositories", .dict [("bootstrap", .str "bootstrap")])]) ∧
    select_gitlab_repositories
      [("use_upstream", .bool true),
        ("gitlab_repositories", .dict [("bootstrap", .str "bootstrap")])]
      (some [("bootstrap", "bootstrap")]) = .error "KeyError: modules" :=
  ⟨rfl, rfl⟩

end Configure
